import Mathlib

/-!
Verification of the AgenticRAG control core (src/src/agent/agent.py,
src/src/model/language_model.py, src/src/agent_context/agent_env.py,
src/src/memory/smol_memory_manager.py) against its natural-language
specification.

Modelling conventions:
* Python values decoded from JSON are modelled by the inductive `Json`;
  JSON numbers are modelled by rationals (the claims under study never
  depend on float rounding).
* `json.loads` is an external library call; it is modelled by an abstract
  parameter `loads : List Char → Option Json` (`none` = the call raised).
* Python strings are handled at character granularity (`List Char`),
  matching Python indexing/slicing, which is character based.
* Exceptions are modelled by `Except`; collaborator objects (language
  model, tools, prompt-template provider) are oracles (`Beh`) indexed by a
  global call counter, receiving the same arguments the source passes.
* Prompt template rendering receives the template name and the variable
  assignments the source supplies; its output string is chosen by the
  oracle.
-/

set_option maxHeartbeats 1600000

/-- JSON values as produced by the json library (numbers as rationals). -/
inductive Json where
  | null : Json
  | bool : Bool → Json
  | num : ℚ → Json
  | str : String → Json
  | arr : List Json → Json
  | obj : List (String × Json) → Json

/-- Python == between a decoded JSON value and a string literal (the only
JSON equality the source performs). -/
def jIsStr (j : Json) (lit : String) : Bool :=
  match j with
  | Json.str t => t == lit
  | _ => false

/-- Lookup in a decoded JSON object; duplicate keys resolve to the last
occurrence, as in Python dicts built by json.loads. -/
def jLookup (fields : List (String × Json)) (k : String) : Option Json :=
  (fields.reverse.find? (fun p => p.1 == k)).map Prod.snd

/-- Python dict.get with a default; on a non-dict this helper is only used
where the source guarantees a dict (other call sites model the
AttributeError explicitly). -/
def jGetD (j : Json) (k : String) (d : Json) : Json :=
  match j with
  | Json.obj fields =>
    match jLookup fields k with
    | some v => v
    | none => d
  | _ => d

/-- Python `k in d` membership test on a decoded JSON object. -/
def jHasKey (j : Json) (k : String) : Bool :=
  match j with
  | Json.obj fields => fields.any (fun p => p.1 == k)
  | _ => false

/-- Whether a JSON value is a dict (Python objects with a .get method). -/
def jIsObj : Json → Bool
  | Json.obj _ => true
  | _ => false

/-- Python truthiness of a decoded JSON value. -/
def pyTruthy : Json → Bool
  | Json.null => false
  | Json.bool b => b
  | Json.num q => q != 0
  | Json.str s => s != ""
  | Json.arr l => !l.isEmpty
  | Json.obj l => !l.isEmpty

/-- Python type name of a decoded JSON value (used in error messages). -/
def pyTypeName : Json → String
  | Json.null => "NoneType"
  | Json.bool _ => "bool"
  | Json.num q => if q.den = 1 then "int" else "float"
  | Json.str _ => "str"
  | Json.arr _ => "list"
  | Json.obj _ => "dict"

mutual

/-- Python repr() of a decoded JSON value (container elements are
repr-ed, strings quoted); number rendering is approximate for non-integer
rationals, which no claim depends on. -/
def pyRepr : Json → String
  | Json.null => "None"
  | Json.bool b => if b then "True" else "False"
  | Json.num q => if q.den = 1 then toString q.num else toString q.num ++ "/" ++ toString q.den
  | Json.str s => "\x27" ++ s ++ "\x27"
  | Json.arr l => "[" ++ String.intercalate ", " (pyReprList l) ++ "]"
  | Json.obj l => "\x7b" ++ String.intercalate ", " (pyReprFields l) ++ "\x7d"

/-- repr() of the elements of a list. -/
def pyReprList : List Json → List String
  | [] => []
  | x :: t => pyRepr x :: pyReprList t

/-- repr() of the key/value pairs of a dict. -/
def pyReprFields : List (String × Json) → List String
  | [] => []
  | p :: t => ("\x27" ++ p.1 ++ "\x27: " ++ pyRepr p.2) :: pyReprFields t

end

/-- Python str() of a decoded JSON value (as interpolated in f-strings). -/
def pyStr : Json → String
  | Json.str s => s
  | j => pyRepr j

mutual

/-- json.dumps with ensure_ascii=False (default separators). -/
def jsonDumps : Json → String
  | Json.null => "null"
  | Json.bool b => if b then "true" else "false"
  | Json.num q => if q.den = 1 then toString q.num else toString q.num ++ "/" ++ toString q.den
  | Json.str s => "\x22" ++ s ++ "\x22"
  | Json.arr l => "[" ++ String.intercalate ", " (jsonDumpsList l) ++ "]"
  | Json.obj l => "\x7b" ++ String.intercalate ", " (jsonDumpsFields l) ++ "\x7d"

/-- json.dumps of the elements of a list. -/
def jsonDumpsList : List Json → List String
  | [] => []
  | x :: t => jsonDumps x :: jsonDumpsList t

/-- json.dumps of the key/value pairs of a dict. -/
def jsonDumpsFields : List (String × Json) → List String
  | [] => []
  | p :: t => ("\x22" ++ p.1 ++ "\x22: " ++ jsonDumps p.2) :: jsonDumpsFields t

end

/-- Python iteration over a decoded JSON value: lists yield elements,
strings yield characters, dicts yield keys; other values raise TypeError.
The error payload is the iterated value's type name. -/
def pyIter : Json → Except String (List Json)
  | Json.arr l => Except.ok l
  | Json.str s => Except.ok (s.toList.map (fun c => Json.str (String.mk [c])))
  | Json.obj l => Except.ok (l.map (fun p => Json.str p.1))
  | j => Except.error (pyTypeName j)

/-- Characters stripped by Python str.strip() (the ASCII whitespace set;
the source only ever strips model text around these). -/
def isPySpace (c : Char) : Bool :=
  c = ' ' || c = '\t' || c = '\n' || c = '\x0d' || c = '\x0b' || c = '\x0c'

/-- Python str.strip() on a character list. -/
def stripChars (l : List Char) : List Char :=
  ((l.dropWhile isPySpace).reverse.dropWhile isPySpace).reverse

/-- Python str.find: index of the first occurrence of pat in s, none when
absent (the source checks membership first, so -1 never flows onward). -/
def findSub : List Char → List Char → Option Nat
  | [], pat => if pat.isEmpty then some 0 else none
  | c :: t, pat =>
    if pat.isPrefixOf (c :: t) then some 0
    else (findSub t pat).map (fun n => n + 1)

/-- Python `pat in s` substring test. -/
def containsSub (s pat : List Char) : Bool :=
  (findSub s pat).isSome

/-- The scanning loop of Python s.split(pat)[-1]: repeatedly skip past the
next (left-to-right, non-overlapping) occurrence of pat. -/
def lastSplitPartFuel (pat : List Char) : Nat → List Char → List Char
  | 0, s => s
  | fuel + 1, s =>
    if pat.isEmpty then s
    else
      match findSub s pat with
      | none => s
      | some i => lastSplitPartFuel pat fuel (s.drop (i + pat.length))

/-- Python s.split(pat)[-1] via the fuelled scanner (each found occurrence
consumes at least one character, so s.length steps always suffice). -/
def lastSplitPart (s pat : List Char) : List Char :=
  lastSplitPartFuel pat s.length s

/-- Python s.split(sep) for a single-character separator. -/
def splitOnChar (sep : Char) (s : List Char) : List (List Char) :=
  s.splitOn sep

/-- Python line.split(str, 1)[1] for the one-character separator used by
the sub-question extraction (text after the first dot). -/
def afterFirstDot (l : List Char) : List Char :=
  (l.dropWhile (fun c => c ≠ '.')).drop 1

/-- The begin marker of the tool-call block protocol. -/
def startMarker : List Char := "<|FunctionCallBegin|>".toList

/-- The end marker of the tool-call block protocol. -/
def endMarker : List Char := "<|FunctionCallEnd|>".toList

/-- The delimited body the parser extracts (language_model.py 356-360):
the stripped text between the first begin marker and the first end marker,
none when either marker is absent. -/
def toolCallBody (response : String) : Option (List Char) :=
  let s := response.toList
  match findSub s startMarker, findSub s endMarker with
  | some i, some j =>
    let startIdx := i + startMarker.length
    some (stripChars ((s.drop startIdx).take (j - startIdx)))
  | _, _ => none

/-- ModelResponseParser.parse_tool_calls (language_model.py 341-370):
extracts the text between the first begin marker and the first end
marker, strips it, parses it with json.loads, and wraps a non-list value
into a singleton; every failure path (missing marker, empty body, parse
failure) yields the empty list, and the function is total: it never
raises. -/
def parse_tool_calls (loads : List Char → Option Json) (response : String) : List Json :=
  match toolCallBody response with
  | some body =>
    if body.isEmpty then []
    else
      match loads body with
      | some (Json.arr xs) => xs
      | some v => [v]
      | none => []
  | none => []

/-- The rewrite marker tested by _analyze_query (agent.py 497). -/
def rewriteMarker : List Char := "改写后的查询: ".toList

/-- The decomposition marker tested by _analyze_query (agent.py 503). -/
def decomposeMarker : List Char := "拆解后的子问题:".toList

/-- Sub-question extraction of _analyze_query (agent.py 505-509): the text
after the last decomposition marker is split into lines, and only lines
whose stripped form begins with "1.", "2." or "3." contribute, keeping the
stripped text after the first dot. -/
def extractSubQuestions (response : String) : List String :=
  let part := stripChars (lastSplitPart response.toList decomposeMarker)
  (splitOnChar '\n' part).filterMap (fun l =>
    let ls := stripChars l
    if "1.".toList.isPrefixOf ls || "2.".toList.isPrefixOf ls || "3.".toList.isPrefixOf ls then
      some (String.mk (stripChars (afterFirstDot ls)))
    else none)

/-- The query_analysis dict built by _analyze_query; every field except
the two always-set ones is optional because the source only conditionally
inserts the corresponding keys. -/
structure QAnalysis where
  originalQuery : Option String := none
  analysisResult : Option String := none
  rewrittenQuery : Option String := none
  action : Option String := none
  subQuestions : Option (List String) := none
deriving DecidableEq

/-- The empty query_analysis dict the session state starts with. -/
def QAnalysis.empty : QAnalysis := {}

/-- The pure response-processing part of _analyze_query (agent.py
490-519): marker dispatch, rewrite extraction, sub-question extraction;
returns the new query together with the query_analysis record. -/
def applyAnalysis (query : String) (resp : String) : String × QAnalysis :=
  let qa0 : QAnalysis := { originalQuery := some query, analysisResult := some resp }
  if containsSub resp.toList rewriteMarker then
    let rq := String.mk (stripChars (lastSplitPart resp.toList rewriteMarker))
    (rq, { qa0 with rewrittenQuery := some rq, action := some "rewrite" })
  else if containsSub resp.toList decomposeMarker then
    let subs := extractSubQuestions resp
    if subs.isEmpty then (query, qa0)
    else (query, { qa0 with subQuestions := some subs, action := some "decompose" })
  else
    (query, { qa0 with action := some "none" })

/-- One interaction entry of MemoryManager (agent_env.py 105-124). -/
structure Interaction where
  role : String
  content : String
  metadata : Json

/-- One knowledge entry of MemoryManager (agent_env.py 139-150). -/
structure KEntry where
  value : Json
  metadata : Json

/-- MemoryManager of agent_env.py 87-228: bounded interaction history, a
knowledge dict, and a compressed-memory string. -/
structure Mem where
  maxHistorySize : Nat
  maxCompressedSize : Nat
  history : List Interaction
  knowledge : List (String × KEntry)
  compressedMemory : String

/-- MemoryManager.__init__ with the given bounds (defaults 10 and 500). -/
def Mem.init (maxHistorySize : Nat := 10) (maxCompressedSize : Nat := 500) : Mem :=
  { maxHistorySize := maxHistorySize, maxCompressedSize := maxCompressedSize, history := [], knowledge := [], compressedMemory := "" }

/-- MemoryManager.add_interaction (agent_env.py 105-124): append, then pop
the oldest entry when the bound is exceeded. -/
def Mem.add_interaction (m : Mem) (role content : String) (metadata : Json := Json.obj []) : Mem :=
  let h := m.history ++ [{ role := role, content := content, metadata := metadata }]
  if h.length > m.maxHistorySize then { m with history := h.drop 1 }
  else { m with history := h }

/-- Python dict assignment d[k] = v on an association list. -/
def assocSet (l : List (String × KEntry)) (k : String) (v : KEntry) : List (String × KEntry) :=
  if l.any (fun p => p.1 == k) then l.map (fun p => if p.1 == k then (k, v) else p)
  else l ++ [(k, v)]

/-- MemoryManager.add_knowledge (agent_env.py 139-150). -/
def Mem.add_knowledge (m : Mem) (key : String) (value : Json) (metadata : Json := Json.obj []) : Mem :=
  { m with knowledge := assocSet m.knowledge key { value := value, metadata := metadata } }

/-- MemoryManager.get_knowledge (agent_env.py 152-159). -/
def Mem.get_knowledge (m : Mem) (key : String) : Option KEntry :=
  (m.knowledge.find? (fun p => p.1 == key)).map Prod.snd

/-- MemoryManager.get_context_with_memory (agent_env.py 192-201). -/
def Mem.get_context_with_memory (m : Mem) (currentContext : String) : String :=
  if m.compressedMemory ≠ "" then
    "[历史交互摘要]\n" ++ m.compressedMemory ++ "\n\n[当前信息]\n" ++ currentContext
  else currentContext

/-- Python character-based string truncation s[:n]. -/
def strTake (s : String) (n : Nat) : String :=
  String.mk (s.toList.take n)

/-- The compression prompt and the pure post-processing of
MemoryManager.compress_memory (agent_env.py 169-190) given the model
outcome: success text is truncated to the budget, failure falls back to
the deterministic placeholder. -/
def Mem.compress_with (m : Mem) (outcome : Except String String) : Mem :=
  if m.history.isEmpty then m
  else
    match outcome with
    | Except.ok r =>
      let cm := if r.length > m.maxCompressedSize then strTake r m.maxCompressedSize ++ "..." else r
      { m with compressedMemory := cm }
    | Except.error _ =>
      { m with compressedMemory := "[" ++ toString m.history.length ++ "条对话历史，包含用户查询和代理回答]" }

/-- The prompt string compress_memory sends to the model. -/
def Mem.compressPrompt (m : Mem) : String :=
  "请将以下对话历史压缩为简洁的摘要，保留最重要的信息和关键点，不要超过" ++
    toString m.maxCompressedSize ++ "字符：\n" ++
    String.intercalate "\n" (m.history.map (fun it => it.role ++ ": " ++ it.content))

/-- MemoryManager.update_with_tool_results (agent_env.py 203-228): store
the successful envelopes of the batch under the knowledge key
last_tool_results. -/
def Mem.update_with_tool_results (m : Mem) (toolResults : List Json) : Mem :=
  if toolResults.isEmpty then m
  else
    let succ := toolResults.filter (fun r => jIsStr (jGetD r "status" Json.null) "success")
    let succJson := succ.map (fun r => Json.obj
      [("tool", jGetD r "tool" Json.null),
       ("result", jGetD r "result" Json.null),
       ("timestamp", jGetD (jGetD r "metadata" (Json.obj [])) "timestamp" (Json.str ""))])
    if succ.isEmpty then m
    else m.add_knowledge "last_tool_results" (Json.arr succJson)
        (Json.obj [("type", Json.str "tool_results"), ("timestamp", Json.str "now")])

/-- One step of the smolagents AgentMemory log as used by
SmolAgentMemoryManager: a TaskStep created by add_knowledge carries the
knowledge key inside its task text, an ActionStep carries an interaction
or a tool result. -/
inductive SmolStep where
  | task : String → String → SmolStep
  | action : String → String → SmolStep
deriving DecidableEq

/-- SmolAgentMemoryManager (smol_memory_manager.py 12-308): the step log,
the knowledge index, and the step counter. -/
structure SmolMem where
  maxHistorySize : Nat
  steps : List SmolStep
  knowledgeIndex : List (String × String)
  currentStep : Nat
deriving DecidableEq

/-- A fresh SmolAgentMemoryManager with the given history bound. -/
def SmolMem.init (maxHistorySize : Nat := 10) : SmolMem :=
  { maxHistorySize := maxHistorySize, steps := [], knowledgeIndex := [], currentStep := 0 }

/-- Python l[i:] with a possibly negative start index. -/
def pySliceFrom (l : List SmolStep) (i : Int) : List SmolStep :=
  if 0 ≤ i then l.drop i.toNat
  else l.drop (l.length - (-i).toNat)

/-- SmolAgentMemoryManager._ensure_history_limit (smol_memory_manager.py
301-308): when the log has reached the bound, keep steps[-max+1:] and
clear the whole knowledge index. -/
def SmolMem.ensure_history_limit (m : SmolMem) : SmolMem :=
  if m.steps.length ≥ m.maxHistorySize then
    { m with steps := pySliceFrom m.steps (1 - (m.maxHistorySize : Int)), knowledgeIndex := [] }
  else m

/-- Python dict assignment on the smol knowledge index. -/
def smolAssocSet (l : List (String × String)) (k v : String) : List (String × String) :=
  if l.any (fun p => p.1 == k) then l.map (fun p => if p.1 == k then (k, v) else p)
  else l ++ [(k, v)]

/-- SmolAgentMemoryManager.add_interaction (smol_memory_manager.py 40-71):
ensure the bound, then append one ActionStep. -/
def SmolMem.add_interaction (m : SmolMem) (role content : String) : SmolMem :=
  let m := m.ensure_history_limit
  { m with currentStep := m.currentStep + 1, steps := m.steps ++ [SmolStep.action role content] }

/-- SmolAgentMemoryManager.add_knowledge (smol_memory_manager.py 121-155):
ensure the bound, append one TaskStep tagged with the key, and index the
key. -/
def SmolMem.add_knowledge (m : SmolMem) (key value : String) : SmolMem :=
  let m := m.ensure_history_limit
  { m with currentStep := m.currentStep + 1, steps := m.steps ++ [SmolStep.task key ("KNOWLEDGE [" ++ key ++ "]: " ++ value)], knowledgeIndex := smolAssocSet m.knowledgeIndex key value }

/-- SmolAgentMemoryManager.get_knowledge (smol_memory_manager.py 157-170):
served from the index alone. -/
def SmolMem.get_knowledge (m : SmolMem) (key : String) : Option String :=
  (m.knowledgeIndex.find? (fun p => p.1 == key)).map Prod.snd

/-- One memory operation of the smol manager, as driven by the agent. -/
inductive SmolOp where
  | addInter : String → String → SmolOp
  | addKnow : String → String → SmolOp
deriving DecidableEq

/-- Apply one operation. -/
def SmolMem.applyOp (m : SmolMem) : SmolOp → SmolMem
  | SmolOp.addInter r c => m.add_interaction r c
  | SmolOp.addKnow k v => m.add_knowledge k v

/-- Apply a sequence of operations from left to right. -/
def SmolMem.applyOps (m : SmolMem) : List SmolOp → SmolMem
  | [] => m
  | op :: t => (m.applyOp op).applyOps t

/-- The knowledge key an operation inserts, if any. -/
def SmolOp.keyAdded : SmolOp → Option String
  | SmolOp.addInter _ _ => none
  | SmolOp.addKnow k _ => some k

/-- A Python exception: its type name and its str() rendering. -/
structure PyErr where
  name : String
  msg : String
deriving DecidableEq

/-- Embedding-level failure: a Python exception, or exhaustion of the fuel
bound on a while loop (modelling that the loop ran longer than the given
number of passes). -/
inductive MErr where
  | py : PyErr → MErr
  | fuel : MErr
deriving DecidableEq

/-- The collaborator oracles, indexed by a global call counter and
receiving the arguments the source passes: prompt-template rendering
(template name plus variable assignments), plain generation, tool-aware
generation (the response text of the returned dict), and tool invocation
(tool name plus the parameters dict). An error value means the
collaborator raised. -/
structure Beh where
  render : Nat → String → List (String × String) → Except PyErr String
  generate : Nat → String → Except PyErr String
  generateWithTools : Nat → String → Except PyErr String
  toolRun : Nat → String → Json → Except PyErr Json

/-- The agent-owned mutable context threaded through a run: the global
collaborator-call index, the number of language-model calls plus tool
invocations made so far, and the MemoryManager instance. -/
structure SState where
  idx : Nat
  counted : Nat
  mem : Mem

/-- Construction-time configuration of AgenticRAG (agent.py 49-84): retry
and tool-call ceilings and the registered tools (name, description). -/
structure Cfg where
  maxRetries : Nat := 3
  maxToolCalls : Nat := 5
  tools : List (String × String) := []

/-- The registered tool names (the keys of self.tools). -/
def toolNames (cfg : Cfg) : List String := cfg.tools.map Prod.fst

/-- One prompt_manager.generate_prompt call (not counted by the
language-model/tool call budget). -/
def callRender (beh : Beh) (tpl : String) (vars : List (String × String)) (s : SState) :
    Except PyErr String × SState :=
  (beh.render s.idx tpl vars, { s with idx := s.idx + 1 })

/-- One model.generate call (counted even when it raises: the call was
made). -/
def callGenerate (beh : Beh) (prompt : String) (s : SState) : Except PyErr String × SState :=
  (beh.generate s.idx prompt, { s with idx := s.idx + 1, counted := s.counted + 1 })

/-- One model.generate_with_tools call (counted). -/
def callGWT (beh : Beh) (prompt : String) (s : SState) : Except PyErr String × SState :=
  (beh.generateWithTools s.idx prompt, { s with idx := s.idx + 1, counted := s.counted + 1 })

/-- One tool.run invocation (counted). -/
def callToolRun (beh : Beh) (nm : String) (params : Json) (s : SState) :
    Except PyErr Json × SState :=
  (beh.toolRun s.idx nm params, { s with idx := s.idx + 1, counted := s.counted + 1 })

/-- MemoryManager.compress_memory driven by the model oracle
(agent_env.py 169-190): no call is made on empty history; otherwise one
generate call whose failure is absorbed by the deterministic fallback. -/
def compressMemoryS (beh : Beh) (s : SState) : SState :=
  if s.mem.history.isEmpty then s
  else
    match callGenerate beh s.mem.compressPrompt s with
    | (Except.ok r, s2) => { s2 with mem := s.mem.compress_with (Except.ok r) }
    | (Except.error e, s2) => { s2 with mem := s.mem.compress_with (Except.error e.msg) }

/-- One entry of the session's tool_calls log (agent.py 356-360). -/
structure TCRecord where
  calls : List Json
  results : List Json

/-- One entry of tool_usage_history (agent.py 371-376). -/
structure ToolUsage where
  tool : String
  queryUsed : String
  resultQuality : ℚ

/-- One entry of sub_questions_results (agent.py 550-556). -/
structure SubResult where
  question : String
  answer : String
  context : String
  status : String

/-- The session state dict of run() (agent.py 100-114). Optional fields
model dict keys that some states (notably the sub-question states of
agent.py 536-545) do not carry; reading an absent key raises KeyError in
the source and the embedding models those call sites explicitly. -/
structure AState where
  query : String
  originalQuery : String
  context : String
  answer : String
  toolCalls : List TCRecord
  retries : Nat
  iterations : Option Nat
  maxIterations : Option Nat
  status : String
  queryAnalysis : QAnalysis
  toolUsageHistory : Option (List ToolUsage)
  errors : Option (List String)
  needIteration : Option Bool
  evaluation : Option Json
  optimizationPlan : Option Json
  errorMsg : Option String
  subQuestionsResults : Option (List SubResult)

/-- The fresh session state of run() (agent.py 100-114). -/
def initState (query : String) (maxIterations : Nat) : AState :=
  { query := query, originalQuery := query, context := "", answer := "", toolCalls := [], retries := 0, iterations := some 0, maxIterations := some maxIterations, status := "processing", queryAnalysis := QAnalysis.empty, toolUsageHistory := some [], errors := some [], needIteration := none, evaluation := none, optimizationPlan := none, errorMsg := none, subQuestionsResults := none }

/-- The sub-question state of _process_query_based_on_analysis (agent.py
536-545); it carries only the seven keys the source sets. -/
def subState (st : AState) (subQuery : String) : AState :=
  { query := subQuery, originalQuery := st.originalQuery, context := st.context, answer := "", toolCalls := [], retries := 0, iterations := none, maxIterations := none, status := "processing", queryAnalysis := QAnalysis.empty, toolUsageHistory := none, errors := none, needIteration := none, evaluation := none, optimizationPlan := none, errorMsg := none, subQuestionsResults := none }

/-- Python state["errors"].append(msg): KeyError when the key is absent. -/
def appendError (st : AState) (msg : String) : Except PyErr AState :=
  match st.errors with
  | some l => Except.ok { st with errors := some (l ++ [msg]) }
  | none => Except.error { name := "KeyError", msg := "\x27errors\x27" }

/-- The failure envelope for an unknown tool name (agent.py 320-324); the
requested name can be any decoded JSON value, rendered by str() in the
message. -/
def unknownToolEnvelope (nameVal : Json) : Json :=
  Json.obj [("status", Json.str "error"), ("tool", nameVal),
            ("message", Json.str ("工具 \x27" ++ pyStr nameVal ++ "\x27 不存在"))]

/-- The success envelope of a tool invocation (agent.py 333-337). -/
def successEnvelope (nm : String) (r : Json) : Json :=
  Json.obj [("status", Json.str "success"), ("tool", Json.str nm), ("result", r)]

/-- The failure envelope of a raising tool (agent.py 343-347). -/
def failureEnvelope (nm : String) (msg : String) : Json :=
  Json.obj [("status", Json.str "error"), ("tool", Json.str nm), ("message", Json.str msg)]

/-- Whether a decoded JSON value is hashable in Python: decoded lists and
dicts are unhashable, every other decoded value (None, bool, number,
string) is hashable. -/
def jHashable : Json → Bool
  | Json.arr _ => false
  | Json.obj _ => false
  | _ => true

/-- The membership test tool_name not in self.tools (agent.py 319) on the
decoded name value: a string is looked up among the registered tool
names; a list or dict is unhashable, so the test itself raises TypeError
out of the batch loop; any other hashable value is simply not among the
string keys. -/
def isKnownTool (cfg : Cfg) (v : Json) : Except PyErr (Option String) :=
  match v with
  | Json.str nm => Except.ok (if (toolNames cfg).contains nm then some nm else none)
  | Json.arr _ => Except.error { name := "TypeError", msg := "unhashable type: \x27list\x27" }
  | Json.obj _ => Except.error { name := "TypeError", msg := "unhashable type: \x27dict\x27" }
  | _ => Except.ok none

/-- A well-formed parsed tool call: a dict whose name value is hashable,
so that reading it and testing membership cannot raise. -/
def goodCall (c : Json) : Bool :=
  jIsObj c && jHashable (jGetD c "name" Json.null)

/-- The tool-dispatch loop of _agent_loop (agent.py 312-354): arguments
are the remaining batch, the tool_call_count so far, the all_tools_failed
flag and the accumulated envelopes. An unknown name appends a failure
envelope without consuming budget; a registered tool is invoked and any
exception becomes a failure envelope; each registered invocation
increments the budget and the loop breaks when it reaches
max_tool_calls. A batch element without a .get method (any non-dict)
raises AttributeError out of the loop, and an element whose name value is
an unhashable list or dict makes the membership test of agent.py 319
raise TypeError out of the loop. (On that raise Python keeps the
increments made so far in its local counter; the embedding returns the
pre-batch counter, which no theorem below depends on.) -/
def dispatchCalls (cfg : Cfg) (beh : Beh) :
    List Json → Nat → Bool → List Json → SState →
    Except PyErr (List Json × Nat × Bool) × SState
  | [], cnt, allFailed, acc, s => (Except.ok (acc, cnt, allFailed), s)
  | tc :: rest, cnt, allFailed, acc, s =>
    match tc with
    | Json.obj fields =>
      let tcv := Json.obj fields
      let nameVal := jGetD tcv "name" Json.null
      let params := jGetD tcv "parameters" (Json.obj [])
      match isKnownTool cfg nameVal with
      | Except.error e => (Except.error e, s)
      | Except.ok none => dispatchCalls cfg beh rest cnt allFailed (acc ++ [unknownToolEnvelope nameVal]) s
      | Except.ok (some nm) =>
        match callToolRun beh nm params s with
        | (Except.ok v, s2) =>
          if cnt + 1 ≥ cfg.maxToolCalls then
            (Except.ok (acc ++ [successEnvelope nm v], cnt + 1, false), s2)
          else dispatchCalls cfg beh rest (cnt + 1) false (acc ++ [successEnvelope nm v]) s2
        | (Except.error e, s2) =>
          if cnt + 1 ≥ cfg.maxToolCalls then
            (Except.ok (acc ++ [failureEnvelope nm e.msg], cnt + 1, allFailed), s2)
          else dispatchCalls cfg beh rest (cnt + 1) allFailed (acc ++ [failureEnvelope nm e.msg]) s2
    | _ =>
      (Except.error { name := "AttributeError", msg := "\x27" ++ pyTypeName tc ++ "\x27 object has no attribute \x27get\x27" }, s)

/-- The per-item score of the retrieval-quality telemetry: item.get with
default 0; a non-dict item or a non-numeric score makes the whole sum
raise (None = raised). Python sums bools as integers. -/
def scoreOf (it : Json) : Option ℚ :=
  match it with
  | Json.obj _ =>
    match jGetD it "score" (Json.num 0) with
    | Json.num q => some q
    | Json.bool b => some (if b then 1 else 0)
    | _ => none
  | _ => none

/-- Sum of the scores of the iterated items, none when any raises. -/
def scoresSum : List Json → Option ℚ
  | [] => some 0
  | it :: t =>
    match scoreOf it, scoresSum t with
    | some q, some r => some (q + r)
    | _, _ => none

/-- The telemetry block of _agent_loop for one result (agent.py 363-382):
only successful retrieve_documents envelopes contribute; the whole block
sits in a per-result try whose failure leaves the state unchanged. -/
def recordUsageOne (tool_calls : List Json) (i : Nat) (result : Json) (st : AState) : AState :=
  if jIsStr (jGetD result "status" Json.null) "success" &&
     jIsStr (jGetD result "tool" Json.null) "retrieve_documents" then
    let attempt : Option AState :=
      let tc := tool_calls.getD i (Json.obj [])
      match jGetD result "result" (Json.obj []) with
      | Json.obj rf =>
        let resultsVal := jGetD (Json.obj rf) "results" (Json.arr [])
        let avgOpt : Option ℚ :=
          if pyTruthy resultsVal then
            match pyIter resultsVal with
            | Except.error _ => none
            | Except.ok items =>
              match scoresSum items with
              | none => none
              | some tot => some (tot / (items.length : ℚ))
          else some 0
        match avgOpt with
        | none => none
        | some avg =>
          match tc with
          | Json.obj _ =>
            match jGetD tc "parameters" (Json.obj []) with
            | Json.obj pf =>
              let qv := jGetD (Json.obj pf) "query" (Json.str "")
              match st.toolUsageHistory with
              | none => none
              | some hist =>
                let hist2 := hist ++ [{ tool := "retrieve_documents", queryUsed := pyStr qv, resultQuality := avg }]
                let hist3 := if hist2.length > 3 then hist2.drop 1 else hist2
                some { st with toolUsageHistory := some hist3 }
            | _ => none
          | _ => none
      | _ => none
    match attempt with
    | some st2 => st2
    | none => st
  else st

/-- The telemetry loop over the batch results (agent.py 363). -/
def recordUsage (tool_calls results : List Json) (st : AState) : AState :=
  results.enum.foldl (fun st2 p => recordUsageOne tool_calls p.1 p.2 st2) st

/-- Python d[k] subscript on a decoded JSON value. -/
def jIndexKey (j : Json) (k : String) : Except PyErr Json :=
  match j with
  | Json.obj f =>
    match jLookup f k with
    | some v => Except.ok v
    | none => Except.error { name := "KeyError", msg := "\x27" ++ k ++ "\x27" }
  | Json.arr _ => Except.error { name := "TypeError", msg := "list indices must be integers or slices, not str" }
  | Json.str _ => Except.error { name := "TypeError", msg := "string indices must be integers" }
  | j2 => Except.error { name := "TypeError", msg := "\x27" ++ pyTypeName j2 ++ "\x27 object is not subscriptable" }

/-- Python `k in v` containment for a string key. -/
def pyInKey (k : String) (j : Json) : Except PyErr Bool :=
  match j with
  | Json.obj f => Except.ok (f.any (fun p => p.1 == k))
  | Json.arr l => Except.ok (l.any (fun e => jIsStr e k))
  | Json.str s => Except.ok (containsSub s.toList k.toList)
  | j2 => Except.error { name := "TypeError", msg := "argument of type \x27" ++ pyTypeName j2 ++ "\x27 is not iterable" }

/-- The per-document line of _format_tool_results for retrieval
(agent.py 635-636). -/
def formatDoc (doc : Json) : Except PyErr String :=
  match doc with
  | Json.obj _ => Except.ok ("文档内容: " ++ pyStr (jGetD doc "content" (Json.str "")))
  | _ => Except.error { name := "AttributeError", msg := "\x27" ++ pyTypeName doc ++ "\x27 object has no attribute \x27get\x27" }

/-- The per-result line of _format_tool_results for web search
(agent.py 637-641), with the 1-based index. -/
def formatSearch (i : Nat) (sr : Json) : Except PyErr String :=
  match sr with
  | Json.obj _ => Except.ok ("搜索结果 " ++ toString (i + 1) ++ ":\n标题: " ++
      pyStr (jGetD sr "title" (Json.str "无标题")) ++ "\n摘要: " ++
      pyStr (jGetD sr "snippet" (Json.str "")))
  | _ => Except.error { name := "AttributeError", msg := "\x27" ++ pyTypeName sr ++ "\x27 object has no attribute \x27get\x27" }

/-- Collect the Except results of a list, failing at the first error. -/
def exceptAll : List (Except PyErr String) → Except PyErr (List String)
  | [] => Except.ok []
  | x :: t =>
    match x, exceptAll t with
    | Except.ok v, Except.ok vs => Except.ok (v :: vs)
    | Except.error e, _ => Except.error e
    | _, Except.error e => Except.error e

/-- AgenticRAG._format_tool_results (agent.py 622-643): formats successful
retrieval and web-search envelopes; iteration or attribute errors on
untrusted payloads raise. -/
def formatToolResults (results : List Json) : Except PyErr String :=
  match exceptAll (results.map (fun result =>
    if jIsStr (jGetD result "status" Json.null) "success" then
      match jIndexKey result "result" with
      | Except.error e => Except.error e
      | Except.ok toolData =>
        if jIsStr (jGetD result "tool" Json.null) "retrieve_documents" then
          match pyInKey "results" toolData with
          | Except.error e => Except.error e
          | Except.ok true =>
            match jIndexKey toolData "results" with
            | Except.error e => Except.error e
            | Except.ok rv =>
              match pyIter rv with
              | Except.error tn => Except.error { name := "TypeError", msg := "\x27" ++ tn ++ "\x27 object is not iterable" }
              | Except.ok docs =>
                match exceptAll (docs.map formatDoc) with
                | Except.error e => Except.error e
                | Except.ok lines => Except.ok (String.intercalate "\n\n" lines)
          | Except.ok false => Except.ok ""
        else if jIsStr (jGetD result "tool" Json.null) "web_search" then
          match pyInKey "results" toolData with
          | Except.error e => Except.error e
          | Except.ok true =>
            match jIndexKey toolData "results" with
            | Except.error e => Except.error e
            | Except.ok rv =>
              match pyIter rv with
              | Except.error tn => Except.error { name := "TypeError", msg := "\x27" ++ tn ++ "\x27 object is not iterable" }
              | Except.ok srs =>
                match exceptAll (srs.enum.map (fun p => formatSearch p.1 p.2)) with
                | Except.error e => Except.error e
                | Except.ok lines => Except.ok (String.intercalate "\n\n" lines)
          | Except.ok false => Except.ok ""
        else Except.ok ""
    else Except.ok "")) with
  | Except.error e => Except.error e
  | Except.ok parts => Except.ok (String.intercalate "\n\n" (parts.filter (fun p => p ≠ "")))

/-- The context-update loop of _agent_loop (agent.py 396-404): append the
formatted text of each successful envelope; the surrounding try makes the
first failure abort the remaining appends while keeping those already
made. -/
def updateContextGo : List Json → String → String
  | [], ctx => ctx
  | r :: rest, ctx =>
    if jIsStr (jGetD r "status" Json.null) "success" then
      match formatToolResults [r] with
      | Except.ok formatted => updateContextGo rest (ctx ++ formatted ++ "\n\n")
      | Except.error _ => ctx
    else updateContextGo rest ctx

/-- One line of the tool-usage-history text (agent.py 252). -/
def usageLine (i : Nat) (u : ToolUsage) : String :=
  toString (i + 1) ++ ". 使用工具: " ++ u.tool ++ ", 查询: " ++ u.queryUsed ++
  ", 结果质量: " ++ (if u.resultQuality > (1 : ℚ)/2 then "相关" else "不相关") ++ "\n"

/-- The tool-usage-history prompt block (agent.py 247-254). -/
def toolUsageHistoryText (st : AState) : String :=
  match st.toolUsageHistory with
  | some l =>
    if l.isEmpty then "\n工具使用历史：\n" ++ "无"
    else "\n工具使用历史：\n" ++ String.join (l.enum.map (fun p => usageLine p.1 p.2))
  | none => "\n工具使用历史：\n" ++ "无"

/-- The variable assignments of the main prompt (agent.py 610-618). -/
def generatePromptVars (cfg : Cfg) (st : AState) (contextToUse : String) :
    List (String × String) :=
  let toolsStr := String.intercalate "\n" (cfg.tools.map (fun t => t.1 ++ ": " ++ t.2))
  [("query", st.query), ("context", contextToUse), ("tools", toolsStr),
   ("last_evaluation", match st.evaluation with
     | some ev => if pyTruthy ev then jsonDumps ev else "无"
     | none => "无"),
   ("optimization_plan", match st.optimizationPlan with
     | some p => if pyTruthy p then jsonDumps p else "无"
     | none => "无")]

/-- AgenticRAG._generate_prompt (agent.py 577-620). -/
def generatePrompt (cfg : Cfg) (beh : Beh) (st : AState)
    (augmented toolUsageStr : String) (s : SState) : Except PyErr String × SState :=
  let ctx0 := if augmented ≠ "" then augmented else st.context
  let ctx1 := if toolUsageStr ≠ "" then toolUsageStr ++ "\n\n" ++ ctx0 else ctx0
  callRender beh "main" (generatePromptVars cfg st ctx1) s

/-- Outcome of one pass of the agent while-loop body: function return,
loop break, loop continue (with the updated tool_call_count), or an
exception escaping the pass-level except (only the KeyError its handler
raises on states without an errors key). -/
inductive IterOut where
  | ret : AState → IterOut
  | brk : AState → IterOut
  | cont : AState → Nat → IterOut
  | raised : PyErr → AState → IterOut

/-- The decision part of one pass of the while body of _agent_loop
(agent.py 244-447), after the memory bookkeeping of 229-242: prompt
generation, the tool-aware model call, dispatch, and the answer paths,
including the pass-level try/except that appends to errors and
continues. -/
def iterBodyCore (cfg : Cfg) (beh : Beh) (loads : List Char → Option Json)
    (tcc : Nat) (st : AState) (s : SState) : IterOut × SState :=
  let augmented := s.mem.get_context_with_memory st.context
  let tuhs := toolUsageHistoryText st
  match generatePrompt cfg beh st augmented tuhs s with
  | (Except.error e, s) =>
    (IterOut.ret { st with status := "error", errorMsg := some ("Prompt generation failed: " ++ e.msg) }, s)
  | (Except.ok prompt, s) =>
    match callGWT beh prompt s with
    | (Except.error e, s) =>
      match callRender beh "simple_answer" [("query", st.query)] s with
      | (Except.error _, s) =>
        (IterOut.ret { st with status := "error", errorMsg := some ("Model generation failed: " ++ e.msg) }, s)
      | (Except.ok fp, s) =>
        match callGenerate beh fp s with
        | (Except.ok a, s) => (IterOut.ret { st with answer := a, status := "success" }, s)
        | (Except.error _, s) =>
          (IterOut.ret { st with status := "error", errorMsg := some ("Model generation failed: " ++ e.msg) }, s)
    | (Except.ok resp, s) =>
      let tool_calls := parse_tool_calls loads resp
      if tool_calls.isEmpty then
        (IterOut.brk { st with answer := resp, status := "success" }, s)
      else
        match dispatchCalls cfg beh tool_calls tcc true [] s with
        | (Except.error e, s) =>
          match appendError st ("Agent loop error: " ++ e.msg) with
          | Except.ok st2 => (IterOut.cont st2 tcc, s)
          | Except.error e2 => (IterOut.raised e2 st, s)
        | (Except.ok (tool_results, tcc2, allFailed), s) =>
          let st := { st with toolCalls := st.toolCalls ++ [{ calls := tool_calls, results := tool_results }] }
          let st := recordUsage tool_calls tool_results st
          let st := { st with context := updateContextGo tool_results st.context }
          if allFailed then
            match callRender beh "rag_answer"
                [("query", st.query),
                 ("context", if st.context = "" then "没有找到相关信息" else st.context)] s with
            | (Except.error e, s) =>
              match appendError st ("Agent loop error: " ++ e.msg) with
              | Except.ok st2 => (IterOut.cont st2 tcc2, s)
              | Except.error e2 => (IterOut.raised e2 st, s)
            | (Except.ok fp, s) =>
              match callGenerate beh fp s with
              | (Except.ok a, s) => (IterOut.ret { st with answer := a, status := "success" }, s)
              | (Except.error e, s) =>
                (IterOut.ret { st with status := "error", errorMsg := some ("All tools failed and fallback generation failed: " ++ e.msg) }, s)
          else if st.context ≠ "" then
            match callRender beh "rag_answer"
                [("query", st.query), ("context", st.context)] s with
            | (Except.error _, s) => (IterOut.cont st tcc2, s)
            | (Except.ok ap, s) =>
              match callGenerate beh ap s with
              | (Except.ok a, s) => (IterOut.brk { st with answer := a, status := "success" }, s)
              | (Except.error _, s) => (IterOut.cont st tcc2, s)
          else (IterOut.cont st tcc2, s)

/-- One pass of the while body of _agent_loop (agent.py 229-447): the
memory bookkeeping of 229-242 followed by the decision part. -/
def iterBody (cfg : Cfg) (beh : Beh) (loads : List Char → Option Json)
    (tcc : Nat) (st : AState) (s : SState) : IterOut × SState :=
  let s := match st.toolCalls.getLast? with
    | some last => { s with mem := s.mem.update_with_tool_results last.results }
    | none => s
  let s := compressMemoryS beh s
  iterBodyCore cfg beh loads tcc st s

/-- Outcome of the while loop of _agent_loop: function return (skipping
the post-loop fallback), fall-through to the post-loop code (break or
guard failure), or an exception reaching the function-level except with
the state current at that point. -/
inductive LoopOut where
  | ret : AState → LoopOut
  | post : AState → LoopOut
  | raised : PyErr → AState → LoopOut

/-- The while loop of _agent_loop (agent.py 224-447), fuelled: each pass
consumes one unit, and fuel exhaustion models the loop still running
after that many passes (possible only for batches that contain a
non-dict element, which consume no budget; see the adequacy theorem). -/
def loopAux (cfg : Cfg) (beh : Beh) (loads : List Char → Option Json) :
    Nat → Nat → AState → SState → Except MErr LoopOut × SState
  | 0, _, _, s => (Except.error MErr.fuel, s)
  | fuel + 1, tcc, st, s =>
    if tcc < cfg.maxToolCalls then
      match iterBody cfg beh loads tcc st s with
      | (IterOut.ret st2, s) => (Except.ok (LoopOut.ret st2), s)
      | (IterOut.brk st2, s) => (Except.ok (LoopOut.post st2), s)
      | (IterOut.raised e st2, s) => (Except.ok (LoopOut.raised e st2), s)
      | (IterOut.cont st2 tcc2, s) => loopAux cfg beh loads fuel tcc2 st2 s
    else (Except.ok (LoopOut.post st), s)

/-- AgenticRAG._agent_loop (agent.py 209-472): ensure the iterations key,
run the while loop, then the post-loop fallback for a still-processing
state; the function-level except converts any escaped exception into a
status-error state, so _agent_loop itself never raises. -/
def agentLoopGo (cfg : Cfg) (beh : Beh) (loads : List Char → Option Json)
    (st : AState) (s : SState) : Except MErr AState × SState :=
  match loopAux cfg beh loads (cfg.maxToolCalls + 1) 0 st s with
  | (Except.error e, s) => (Except.error e, s)
  | (Except.ok (LoopOut.ret st2), s) => (Except.ok st2, s)
  | (Except.ok (LoopOut.raised e st2), s) =>
    (Except.ok { st2 with status := "error", errorMsg := some ("Agent loop failed: " ++ e.name ++ ": " ++ e.msg), iterations := if st2.iterations = none then some 0 else st2.iterations }, s)
  | (Except.ok (LoopOut.post st2), s) =>
    if st2.status = "processing" then
      match callRender beh "rag_answer"
          [("query", st2.query),
           ("context", if st2.context = "" then "没有找到相关信息" else st2.context)] s with
      | (Except.error e, s) =>
        (Except.ok { st2 with status := "error", errorMsg := some ("Max tool calls reached and fallback generation failed: " ++ e.msg) }, s)
      | (Except.ok fp, s) =>
        match callGenerate beh fp s with
        | (Except.ok a, s) => (Except.ok { st2 with answer := a, status := "success" }, s)
        | (Except.error e, s) =>
          (Except.ok { st2 with status := "error", errorMsg := some ("Max tool calls reached and fallback generation failed: " ++ e.msg) }, s)
    else (Except.ok st2, s)

/-- AgenticRAG._agent_loop (agent.py 209-222): ensure the iterations key,
then run the loop and its post-processing. -/
def agentLoop (cfg : Cfg) (beh : Beh) (loads : List Char → Option Json)
    (st : AState) (s : SState) : Except MErr AState × SState :=
  agentLoopGo cfg beh loads
    (if st.iterations = none then { st with iterations := some 0 } else st) s

/-- AgenticRAG._analyze_query (agent.py 474-519): one render, one model
call, then the pure marker processing; exceptions propagate to run(). -/
def analyzeQueryS (cfg : Cfg) (beh : Beh) (st : AState) (s : SState) :
    Except MErr AState × SState :=
  match callRender beh "query_rewrite" [("query", st.query)] s with
  | (Except.error e, s) => (Except.error (MErr.py e), s)
  | (Except.ok p, s) =>
    match callGenerate beh p s with
    | (Except.error e, s) => (Except.error (MErr.py e), s)
    | (Except.ok resp, s) =>
      let r := applyAnalysis st.query resp
      (Except.ok { st with query := r.1, queryAnalysis := r.2 }, s)

/-- The sub-question loop of _process_query_based_on_analysis (agent.py
535-559): each sub-question runs through the agent loop on a fresh
sub-state, its result is recorded and its context appended to the main
context. -/
def processSubsLoop (cfg : Cfg) (beh : Beh) (loads : List Char → Option Json) :
    List String → AState → SState → Except MErr AState × SState
  | [], st, s => (Except.ok st, s)
  | q :: rest, st, s =>
    match agentLoop cfg beh loads (subState st q) s with
    | (Except.error e, s) => (Except.error e, s)
    | (Except.ok sub2, s) =>
      let entry : SubResult := { question := q, answer := sub2.answer, context := sub2.context, status := sub2.status }
      let st := { st with subQuestionsResults := some ((st.subQuestionsResults.getD []) ++ [entry]), context := st.context ++ "\n\n" ++ sub2.context }
      processSubsLoop cfg beh loads rest st s

/-- AgenticRAG._process_query_based_on_analysis (agent.py 521-575). On an
exception from the final synthesis calls, Python keeps the in-place
context/sub-result mutations while this functional embedding reports the
pre-call state to the caller; no theorem below depends on those fields at
that point. -/
def processQuery (cfg : Cfg) (beh : Beh) (loads : List Char → Option Json)
    (st : AState) (s : SState) : Except MErr AState × SState :=
  if st.queryAnalysis.action = some "decompose" ∧ st.queryAnalysis.subQuestions.isSome then
    let subs := st.queryAnalysis.subQuestions.getD []
    let st := { st with subQuestionsResults := some [] }
    match processSubsLoop cfg beh loads subs st s with
    | (Except.error e, s) => (Except.error e, s)
    | (Except.ok st2, s) =>
      let results := st2.subQuestionsResults.getD []
      if results.isEmpty then (Except.ok st2, s)
      else
        let subAnswers := (results.filter (fun r => r.status == "success")).map
          (fun r => r.question ++ "\n" ++ r.answer)
        let combined := String.intercalate "\n\n" subAnswers
        match callRender beh "rag_answer"
            [("query", st2.originalQuery),
             ("context", "子问题回答:\n" ++ combined ++ "\n\n原始上下文:" ++ st2.context)] s with
        | (Except.error e, s) => (Except.error (MErr.py e), s)
        | (Except.ok p, s) =>
          match callGenerate beh p s with
          | (Except.error e, s) => (Except.error (MErr.py e), s)
          | (Except.ok a, s) => (Except.ok { st2 with answer := a, status := "success" }, s)
  else (Except.ok st, s)

/-- The evaluation dict used on the parse-failure paths of
_evaluate_answer (agent.py 683-728); the suggestion text varies per
path. -/
def fallbackEval (sugg : String) : Json :=
  Json.obj [("overall_rating", Json.str "一般"), ("suggestions", Json.str sugg),
            ("need_iteration", Json.str "否")]

/-- Index of the last occurrence of a character. -/
def lastIdxOf (l : List Char) (c : Char) : Option Nat :=
  (l.reverse.findIdx? (fun x => x = c)).map (fun i => l.length - 1 - i)

/-- The brace-delimited slice the evaluation/optimization parsers feed to
json.loads: from the first opening brace to the last closing brace
(agent.py 711-713). -/
def braceSliceCore (l : List Char) : Option (List Char) :=
  match l.findIdx? (fun c => c = '\x7b'), lastIdxOf l '\x7d' with
  | some i, some j => some ((l.drop i).take (j + 1 - i))
  | _, _ => none

/-- The evaluation-parsing step of _evaluate_answer (agent.py 707-728):
slice from the first brace to the last closing brace and json.loads it;
missing braces or a parse failure produce the documented default dict.
(The str(e) detail of the parse-error suggestion is abstracted away by
the abstract loads.) -/
def parseEvaluation (loads : List Char → Option Json) (resp : String) : Json :=
  if containsSub resp.toList ['\x7b'] && containsSub resp.toList ['\x7d'] then
    match braceSliceCore resp.toList with
    | some body =>
      match loads body with
      | some ev => ev
      | none => fallbackEval "评估结果解析错误: "
    | none => fallbackEval "评估结果解析错误: "
  else fallbackEval "无法解析详细评估结果"

/-- The need_iteration decision of _evaluate_answer (agent.py 741-743) on
a dict evaluation: the need_iteration field equals the literal string 是,
or overall_rating is one of 较差 / 差. -/
def evalNeedIteration (ev : Json) : Bool :=
  (jIsStr (jGetD ev "need_iteration" (Json.str "否")) "是") ||
  (jIsStr (jGetD ev "overall_rating" (Json.str "")) "较差") ||
  (jIsStr (jGetD ev "overall_rating" (Json.str "")) "差")

/-- The function-level except of _evaluate_answer (agent.py 750-760):
append to errors (a missing errors key re-raises KeyError out of the
function), install a default evaluation when none is present, and clear
need_iteration. -/
def evalOuterCatch (st : AState) (e : PyErr) (s : SState) :
    Except MErr AState × SState :=
  match appendError st ("Evaluation error: " ++ e.msg) with
  | Except.error e2 => (Except.error (MErr.py e2), s)
  | Except.ok st2 =>
    let st3 := if st2.evaluation.isNone then
        { st2 with evaluation := some (fallbackEval ("评估过程发生错误: " ++ e.msg)) }
      else st2
    (Except.ok { st3 with needIteration := some false }, s)

/-- AgenticRAG._evaluate_answer (agent.py 654-762). An empty answer is a
status error; render or model failure installs a fallback evaluation with
need_iteration false; otherwise the response is parsed and need_iteration
decided; a non-dict parse result makes the detail printing raise
AttributeError into the function-level except. The banner print reads
state["iterations"], so its absence raises KeyError into the same
except. -/
def evaluateAnswer (cfg : Cfg) (beh : Beh) (loads : List Char → Option Json)
    (st : AState) (s : SState) : Except MErr AState × SState :=
  if st.answer = "" then
    (Except.ok { st with status := "error", errorMsg := some "没有生成答案" }, s)
  else
    match st.iterations with
    | none => evalOuterCatch st { name := "KeyError", msg := "\x27iterations\x27" } s
    | some _ =>
      match callRender beh "answer_evaluation"
          [("query", st.query), ("answer", st.answer), ("context", st.context)] s with
      | (Except.error e, s) =>
        (Except.ok { st with evaluation := some (fallbackEval ("生成评估提示失败: " ++ e.msg)), needIteration := some false }, s)
      | (Except.ok p, s) =>
        match callGenerate beh p s with
        | (Except.error e, s) =>
          (Except.ok { st with evaluation := some (fallbackEval ("模型评估失败: " ++ e.msg)), needIteration := some false }, s)
        | (Except.ok resp, s) =>
          match parseEvaluation loads resp with
          | Json.obj f =>
            (Except.ok { st with evaluation := some (Json.obj f), needIteration := some (evalNeedIteration (Json.obj f)) }, s)
          | ev =>
            evalOuterCatch { st with evaluation := some ev }
              { name := "AttributeError", msg := "\x27" ++ pyTypeName ev ++ "\x27 object has no attribute \x27get\x27" } s

/-- The optimization-plan defaults of _optimize_answer (agent.py
832-863). -/
def fallbackPlan (details : String) : Json :=
  Json.obj [("next_action", Json.str "重新生成"), ("action_details", Json.str details)]

/-- The plan-parsing step of _optimize_answer (agent.py 845-863), same
brace slicing as the evaluation parser with its own defaults. -/
def parseOptimization (loads : List Char → Option Json) (resp : String) : Json :=
  if containsSub resp.toList ['\x7b'] && containsSub resp.toList ['\x7d'] then
    match braceSliceCore resp.toList with
    | some body =>
      match loads body with
      | some p => p
      | none => fallbackPlan "优化计划解析错误: "
    | none => fallbackPlan "优化计划解析错误: "
  else fallbackPlan "基于当前上下文重新生成更准确的答案"

/-- The function-level except of _optimize_answer (agent.py 899-907). -/
def optOuterCatch (st : AState) (e : PyErr) (s : SState) :
    Except MErr AState × SState :=
  match appendError st ("Optimization error: " ++ e.msg) with
  | Except.error e2 => (Except.error (MErr.py e2), s)
  | Except.ok st2 =>
    (Except.ok (if st2.optimizationPlan.isNone then
        { st2 with optimizationPlan := some (fallbackPlan ("优化过程发生错误: " ++ e.msg)) }
      else st2), s)

/-- The plan-execution except of _optimize_answer (agent.py 888-896); its
own errors-append failure escalates to the function-level except. -/
def optActionCatch (st : AState) (e : PyErr) (s : SState) :
    Except MErr AState × SState :=
  match appendError st ("Optimization execution error: " ++ e.msg) with
  | Except.error e2 => optOuterCatch st e2 s
  | Except.ok st2 =>
    (Except.ok (if st2.optimizationPlan.isNone then
        { st2 with optimizationPlan := some (fallbackPlan ("优化执行失败: " ++ e.msg)) }
      else st2), s)

/-- A render followed by a generate, failing on either (the common shape
of the three optimization sub-calls). -/
def renderGen (beh : Beh) (tpl : String) (vars : List (String × String)) (s : SState) :
    Except PyErr String × SState :=
  match callRender beh tpl vars s with
  | (Except.error e, s) => (Except.error e, s)
  | (Except.ok p, s) => callGenerate beh p s

/-- AgenticRAG._optimize_answer (agent.py 764-909): self-critique,
reflection and optimization calls each degrade to a placeholder string;
the parsed plan is stored and its next_action executed (re-retrieve
clears the context and extends the query; decompose re-runs analysis and
sub-question processing; anything else is a no-op). -/
def optimizeAnswer (cfg : Cfg) (beh : Beh) (loads : List Char → Option Json)
    (st : AState) (s : SState) : Except MErr AState × SState :=
  match st.evaluation with
  | none =>
    (Except.ok { st with evaluation := some (fallbackEval "无评估结果") }, s)
  | some ev =>
    match st.iterations with
    | none => optOuterCatch st { name := "KeyError", msg := "\x27iterations\x27" } s
    | some _ =>
      match renderGen beh "self_critique"
          [("answer", st.answer), ("query", st.query), ("context", st.context)] s with
      | (r1, s) =>
        let selfCritique := match r1 with
          | Except.ok t => t
          | Except.error e => "自我批评生成失败: " ++ e.msg
        match renderGen beh "reflection"
            [("query", st.query),
             ("thought_process", "评估结果: " ++ jsonDumps ev ++ "\n自我批评: " ++ selfCritique)] s with
        | (r2, s) =>
          let reflection := match r2 with
            | Except.ok t => t
            | Except.error e => "反思生成失败: " ++ e.msg
          match renderGen beh "iteration_optimization"
              [("query", st.query), ("answer", st.answer), ("context", st.context),
               ("evaluation", jsonDumps ev), ("self_critique", selfCritique),
               ("reflection", reflection)] s with
          | (Except.error e, s) =>
            (Except.ok { st with optimizationPlan := some (fallbackPlan ("优化提示生成失败: " ++ e.msg)) }, s)
          | (Except.ok resp, s) =>
            let plan := parseOptimization loads resp
            let st := { st with optimizationPlan := some plan }
            match plan with
            | Json.obj pf =>
              let planV := Json.obj pf
              if jIsStr (jGetD planV "next_action" Json.null) "重新检索" then
                let st := { st with context := "" }
                let st := if jHasKey planV "action_details" then
                    { st with query := st.query ++ "\n重点关注: " ++ pyStr (jGetD planV "action_details" Json.null) }
                  else st
                (Except.ok st, s)
              else if jIsStr (jGetD planV "next_action" Json.null) "拆解问题" &&
                  jHasKey planV "action_details" then
                match analyzeQueryS cfg beh st s with
                | (Except.error (MErr.py e), s) => optActionCatch st e s
                | (Except.error MErr.fuel, s) => (Except.error MErr.fuel, s)
                | (Except.ok st2, s) =>
                  match processQuery cfg beh loads st2 s with
                  | (Except.error (MErr.py e), s) => optActionCatch st2 e s
                  | (Except.error MErr.fuel, s) => (Except.error MErr.fuel, s)
                  | (Except.ok st3, s) => (Except.ok st3, s)
              else (Except.ok st, s)
            | _ =>
              optActionCatch st { name := "AttributeError", msg := "\x27" ++ pyTypeName plan ++ "\x27 object has no attribute \x27get\x27" } s

/-- Python state["iterations"] += 1. -/
def incIterations (st : AState) : Except PyErr AState :=
  match st.iterations with
  | some i => Except.ok { st with iterations := some (i + 1) }
  | none => Except.error { name := "KeyError", msg := "\x27iterations\x27" }

/-- The iteration-level except of run() (agent.py 161-166): append the
error, advance the iteration counter, and continue the loop. -/
def evalIterCatch (st : AState) (msg : String) : Except PyErr AState :=
  match st.iterations with
  | none => Except.error { name := "KeyError", msg := "\x27iterations\x27" }
  | some i =>
    match appendError st ("Iteration " ++ toString i ++ " error: " ++ msg) with
    | Except.error e2 => Except.error e2
    | Except.ok st2 => Except.ok { st2 with iterations := some (i + 1) }

/-- The evaluate-and-optimize while loop of run() (agent.py 145-166),
fuelled: each pass consumes one unit (every pass either exits or
increments iterations, so max_iterations + 1 units always suffice). -/
def evalLoopAux (cfg : Cfg) (beh : Beh) (loads : List Char → Option Json) :
    Nat → AState → SState → Except MErr AState × SState
  | 0, _, s => (Except.error MErr.fuel, s)
  | fuel + 1, st, s =>
    match st.iterations, st.maxIterations with
    | some i, some m =>
      if st.status = "success" ∧ i < m then
        match evaluateAnswer cfg beh loads st s with
        | (Except.error e, s) => (Except.error e, s)
        | (Except.ok st1, s) =>
          if st1.status = "error" then
            match evalIterCatch st1
                ("Answer evaluation failed: " ++ (st1.errorMsg.getD "Unknown error")) with
            | Except.error e => (Except.error (MErr.py e), s)
            | Except.ok st2 => evalLoopAux cfg beh loads fuel st2 s
          else if st1.needIteration.getD false then
            match optimizeAnswer cfg beh loads st1 s with
            | (Except.error e, s) => (Except.error e, s)
            | (Except.ok st2, s) =>
              if st2.status = "error" then
                match evalIterCatch st2
                    ("Answer optimization failed: " ++ (st2.errorMsg.getD "Unknown error")) with
                | Except.error e => (Except.error (MErr.py e), s)
                | Except.ok st3 => evalLoopAux cfg beh loads fuel st3 s
              else
                match agentLoop cfg beh loads st2 s with
                | (Except.error e, s) => (Except.error e, s)
                | (Except.ok st3, s) =>
                  if st3.status = "error" then
                    match evalIterCatch st3
                        ("Agent loop after optimization failed: " ++
                          (st3.errorMsg.getD "Unknown error")) with
                    | Except.error e => (Except.error (MErr.py e), s)
                    | Except.ok st4 => evalLoopAux cfg beh loads fuel st4 s
                  else
                    match incIterations st3 with
                    | Except.error e => (Except.error (MErr.py e), s)
                    | Except.ok st4 => evalLoopAux cfg beh loads fuel st4 s
          else (Except.ok st1, s)
      else (Except.ok st, s)
    | _, _ =>
      (Except.error (MErr.py { name := "KeyError", msg := "\x27iterations\x27" }), s)

/-- Outcome of one attempt of the retry loop of run(): normal completion
(run then checks status), or a Python exception reaching the except at
agent.py 171 together with the state current at the raise. -/
inductive AttemptOut where
  | done : AState → AttemptOut
  | exc : AState → PyErr → AttemptOut

/-- The try body of one retry-loop pass (agent.py 125-166): analysis,
analysis-driven processing, the agent loop, and the evaluation loop, with
the explicit status-error raises of agent.py 131/136/141 and the
exceptions of the sub-calls routed to the pass-level except. -/
def attemptCore (cfg : Cfg) (beh : Beh) (loads : List Char → Option Json)
    (st : AState) (s : SState) : Except MErr AttemptOut × SState :=
  match analyzeQueryS cfg beh st s with
  | (Except.error (MErr.py e), s) => (Except.ok (AttemptOut.exc st e), s)
  | (Except.error MErr.fuel, s) => (Except.error MErr.fuel, s)
  | (Except.ok st1, s) =>
    if st1.status = "error" then
      (Except.ok (AttemptOut.exc st1 { name := "Exception", msg := "Query analysis failed: " ++ (st1.errorMsg.getD "Unknown error") }), s)
    else
      match processQuery cfg beh loads st1 s with
      | (Except.error (MErr.py e), s) => (Except.ok (AttemptOut.exc st1 e), s)
      | (Except.error MErr.fuel, s) => (Except.error MErr.fuel, s)
      | (Except.ok st2, s) =>
        if st2.status = "error" then
          (Except.ok (AttemptOut.exc st2 { name := "Exception", msg := "Query processing failed: " ++ (st2.errorMsg.getD "Unknown error") }), s)
        else
          match agentLoop cfg beh loads st2 s with
          | (Except.error (MErr.py e), s) => (Except.ok (AttemptOut.exc st2 e), s)
          | (Except.error MErr.fuel, s) => (Except.error MErr.fuel, s)
          | (Except.ok st3, s) =>
            if st3.status = "error" then
              (Except.ok (AttemptOut.exc st3 { name := "Exception", msg := "Agent loop failed: " ++ (st3.errorMsg.getD "Unknown error") }), s)
            else
              match evalLoopAux cfg beh loads ((st3.maxIterations.getD 0) + 1) st3 s with
              | (Except.error (MErr.py e), s) => (Except.ok (AttemptOut.exc st3 e), s)
              | (Except.error MErr.fuel, s) => (Except.error MErr.fuel, s)
              | (Except.ok st4, s) => (Except.ok (AttemptOut.done st4), s)

/-- The memory-update tail of a retry-loop pass (agent.py 190-205); the
direct state["iterations"] read can raise KeyError (it is present on
every state run builds), and the memory operations themselves are
total. -/
def memUpdate (st : AState) (s : SState) : Except MErr Unit × SState :=
  if st.answer ≠ "" then
    match st.iterations with
    | none => (Except.error (MErr.py { name := "KeyError", msg := "\x27iterations\x27" }), s)
    | some i =>
      let md := Json.obj [("evaluation", st.evaluation.getD (Json.obj [])),
                          ("iterations", Json.num (i : ℚ))]
      let s := { s with mem := s.mem.add_interaction "agent" st.answer md }
      match st.evaluation with
      | some ev =>
        if pyTruthy ev then
          (Except.ok (), { s with mem := s.mem.add_knowledge ("evaluation_iteration_" ++ toString i) ev (Json.obj [("type", Json.str "evaluation"), ("iteration", Json.num (i : ℚ))]) })
        else (Except.ok (), s)
      | none => (Except.ok (), s)
  else (Except.ok (), s)

/-- The retry while loop of run() (agent.py 124-205), fuelled. A
successful pass breaks out before the memory update; a completed pass
with a non-success status updates memory and loops; a caught exception
appends to errors and bumps retries, then either records terminal error
status (budget exhausted) or resets part of the state and evaluates
time.sleep(1) -- and the time module is never imported by agent.py, so
that line raises NameError out of run(). -/
def retryLoopAux (cfg : Cfg) (beh : Beh) (loads : List Char → Option Json) :
    Nat → AState → SState → Except MErr AState × SState
  | 0, _, s => (Except.error MErr.fuel, s)
  | fuel + 1, st, s =>
    if st.retries ≤ cfg.maxRetries then
      match attemptCore cfg beh loads st s with
      | (Except.error e, s) => (Except.error e, s)
      | (Except.ok (AttemptOut.done st1), s) =>
        if st1.status = "success" then (Except.ok st1, s)
        else
          match memUpdate st1 s with
          | (Except.error e, s) => (Except.error e, s)
          | (Except.ok _, s) => retryLoopAux cfg beh loads fuel st1 s
      | (Except.ok (AttemptOut.exc stx e), s) =>
        match appendError stx e.msg with
        | Except.error e2 => (Except.error (MErr.py e2), s)
        | Except.ok st2 =>
          let st3 := { st2 with retries := st2.retries + 1 }
          if st3.retries > cfg.maxRetries then
            let st4 := { st3 with status := "error", errorMsg := some ("Failed after " ++ toString cfg.maxRetries ++ " retries: " ++ e.msg) }
            match memUpdate st4 s with
            | (Except.error e3, s) => (Except.error e3, s)
            | (Except.ok _, s) => retryLoopAux cfg beh loads fuel st4 s
          else
            (Except.error (MErr.py { name := "NameError", msg := "name \x27time\x27 is not defined" }), s)
    else (Except.ok st, s)

/-- AgenticRAG.run (agent.py 86-207): record the user query in memory,
build the fresh session state, and drive the retry loop. The environment
update of agent.py 116-121 uses the repository's SimpleAgentEnvironment,
whose update_state cannot raise on a dict argument, so it is a no-op
here. The retry-loop fuel max_retries + 3 is proved sufficient for every
behavior under which the loop terminates at all. -/
def runAgent (cfg : Cfg) (beh : Beh) (loads : List Char → Option Json)
    (query : String) (maxIterations : Nat) (s : SState) :
    Except MErr AState × SState :=
  let s := { s with mem := s.mem.add_interaction "user" query }
  retryLoopAux cfg beh loads (cfg.maxRetries + 3) (initState query maxIterations) s

/-- The fresh per-orchestrator mutable context: call counters at zero and
a default MemoryManager (max_history_size 10, max_compressed_size 500). -/
def initSState : SState := { idx := 0, counted := 0, mem := Mem.init }

/-- The last n elements of a list, in order (used to state the FIFO
retention property of the memory store). -/
def lastN (n : Nat) (l : List α) : List α := l.drop (l.length - n)

/-- The interaction entry add_interaction builds for default metadata. -/
def mkInteraction (p : String × String) : Interaction :=
  { role := p.1, content := p.2, metadata := Json.obj [] }

/-- Fold a sequence of (role, content) interactions into the memory
store. -/
def Mem.addAll (m : Mem) (items : List (String × String)) : Mem :=
  items.foldl (fun m2 p => m2.add_interaction p.1 p.2) m

/-- Spec-side reading of the evaluator claim: need_iteration is decided by
Python truthiness of the need_iteration field (or a poor overall rating).
The source instead compares the field with the literal string 是, which
this development separates from the claim. -/
def specNeedIteration (ev : Json) : Bool :=
  pyTruthy (jGetD ev "need_iteration" Json.null) ||
  jIsStr (jGetD ev "overall_rating" (Json.str "")) "较差" ||
  jIsStr (jGetD ev "overall_rating" (Json.str "")) "差"

/-- The per-element envelopes a batch of well-formed (dict with hashable
name) tool calls produces under the dispatch loop, starting at the given
oracle call index: unknown names give the unknown-tool failure envelope
without consuming an oracle call; registered names consume one oracle
call and give a success or failure envelope. (The unhashable-name case
raises in the loop and is outside this function\x27s intended domain;
it returns the empty list there.) -/
def envelopedResults (cfg : Cfg) (beh : Beh) : List Json → Nat → List Json
  | [], _ => []
  | tc :: rest, idx =>
    match isKnownTool cfg (jGetD tc "name" Json.null) with
    | Except.error _ => []
    | Except.ok none => unknownToolEnvelope (jGetD tc "name" Json.null) ::
        envelopedResults cfg beh rest idx
    | Except.ok (some nm) =>
      (match beh.toolRun idx nm (jGetD tc "parameters" (Json.obj [])) with
       | Except.ok v => successEnvelope nm v
       | Except.error e => failureEnvelope nm e.msg) ::
        envelopedResults cfg beh rest (idx + 1)

/-- The status field of a run outcome, none when run raised. -/
def runStatus (r : Except MErr AState × SState) : Option String :=
  match r.1 with
  | Except.ok st => some st.status
  | Except.error _ => none

/-- The error of a run outcome, none when run returned normally. -/
def runError (r : Except MErr AState × SState) : Option MErr :=
  match r.1 with
  | Except.ok _ => none
  | Except.error e => some e

/-- Collaborator behaviors under which the orchestrator's loops make
progress: every tool-call batch parsed from a successful tool-aware
generation consists of dicts with hashable name values (a non-dict
element raises AttributeError out of the dispatch loop, and a list- or
dict-valued name makes the membership test raise TypeError there; either
raise is caught by the pass-level except and the pass is retried without
consuming any tool-call budget), and the prompt-template provider never
raises (the render call at agent.py 410 sits outside every try of the
loop body, so its exception is likewise caught-and-continued without
budget progress). -/
def GoodBeh (cfg : Cfg) (beh : Beh) (loads : List Char → Option Json) : Prop :=
  (∀ n p r, beh.generateWithTools n p = Except.ok r →
     ∀ c ∈ parse_tool_calls loads r, goodCall c = true) ∧
  (∀ n t vars, ∃ v, beh.render n t vars = Except.ok v)

/-- Session-state fields a loop pass leaves intact (used by the
termination and status invariants). -/
def Pres (st st2 : AState) : Prop :=
  st2.iterations = st.iterations ∧ st2.maxIterations = st.maxIterations ∧
  st2.errors.isSome = st.errors.isSome ∧ st2.retries = st.retries

/-- A json.loads oracle that always fails (no JSON body is ever parsed in
the traces it is used for). -/
def jloadsNone : List Char → Option Json := fun _ => none

/-- A language model that answers every prompt directly: analysis and
evaluation responses carry no markers or braces, tool-aware generation
returns plain text without a tool-call block. -/
def behDirectAnswer : Beh :=
  { render := fun _ _ _ => Except.ok "p",
    generate := fun _ _ => Except.ok "z",
    generateWithTools := fun _ _ => Except.ok "y",
    toolRun := fun _ _ _ => Except.ok Json.null }

/-- A configuration with max_retries 3 (the default), max_tool_calls 1
and no registered tools. -/
def cfgSmall : Cfg := { maxRetries := 3, maxToolCalls := 1, tools := [] }

/-- A language model whose generate raises on every call (the first such
call in a run is the query-analysis call of agent.py 488). -/
def behModelRaises : Beh :=
  { render := fun _ _ _ => Except.ok "p",
    generate := fun _ _ => Except.error { name := "Exception", msg := "boom" },
    generateWithTools := fun _ _ => Except.ok "y",
    toolRun := fun _ _ _ => Except.ok Json.null }

/-- The evaluation JSON of the evaluator counterexample: a truthy (JSON
true) need_iteration field with a good overall rating. -/
def evTruthy : Json :=
  Json.obj [("need_iteration", Json.bool true), ("overall_rating", Json.str "良好")]

/-- A loads oracle decoding the counterexample evaluation body. -/
def loadsEvTruthy : List Char → Option Json := fun l =>
  if l = "\x7b\x22need_iteration\x22: true, \x22overall_rating\x22: \x22良好\x22\x7d".toList
  then some evTruthy else none

/-- A language model whose evaluation response is the counterexample
JSON object, all other calls benign. -/
def behEvTruthy : Beh :=
  { render := fun _ _ _ => Except.ok "p",
    generate := fun _ _ =>
      Except.ok "\x7b\x22need_iteration\x22: true, \x22overall_rating\x22: \x22良好\x22\x7d",
    generateWithTools := fun _ _ => Except.ok "y",
    toolRun := fun _ _ _ => Except.ok Json.null }

/-- A session state holding a non-empty answer awaiting evaluation. -/
def stAnswered : AState := { initState "q" 3 with answer := "a", status := "success" }

/-- The state _evaluate_answer produces on the counterexample run, with a
default sentinel on the (unreached) exception branch. -/
def evalResultState (r : Except MErr AState × SState) : AState :=
  match r.1 with
  | Except.ok st => st
  | Except.error _ => initState "" 0

/-- A loads oracle decoding the one-string-element batch of the dispatch
counterexample. -/
def loadsStrBatch : List Char → Option Json := fun l =>
  if l = "[\x22x\x22]".toList then some (Json.arr [Json.str "x"]) else none

/-- A behavior whose registered tool raises (used by the dispatch
witness). -/
def behToolRaises : Beh :=
  { render := fun _ _ _ => Except.ok "p",
    generate := fun _ _ => Except.ok "z",
    generateWithTools := fun _ _ => Except.ok "y",
    toolRun := fun _ _ _ => Except.error { name := "RuntimeError", msg := "tool blew up" } }

/-- A configuration registering one tool named retrieve_documents. -/
def cfgOneTool : Cfg :=
  { maxRetries := 3, maxToolCalls := 5, tools := [("retrieve_documents", "retrieves")] }

/-- A memory store with one recorded interaction (non-empty history). -/
def memC9 : Mem := (Mem.init).add_interaction "user" "hi"

/-- A loads oracle decoding a bare (non-list) JSON string body. -/
def loadsBareStr : List Char → Option Json := fun l =>
  if l = "s".toList then some (Json.str "bare") else none

/-- Whether the smol log contains a TaskStep tagged with the given
knowledge key (decidable form of "the entry is still present in the
bounded log"). -/
def SmolMem.hasTaskFor (m : SmolMem) (k : String) : Bool :=
  m.steps.any (fun s =>
    match s with
    | SmolStep.task k2 _ => k2 == k
    | SmolStep.action _ _ => false)

/-- C4: ModelResponseParser.parse_tool_calls is a total function on input
text (it returns a plain list on every input and never raises): when both
markers are present and the delimited body parses as a JSON array, the
decoded array is returned unchanged, so the result length equals the
number of its elements; a bare JSON object is auto-wrapped into a
one-element list; a JSON parse failure, an empty body, or a missing
marker yields the empty list. -/
theorem C4_parse_tool_calls_contract (loads : List Char → Option Json) (response : String) :
    (∀ body xs, toolCallBody response = some body → body ≠ [] →
       loads body = some (Json.arr xs) →
       parse_tool_calls loads response = xs ∧
       (parse_tool_calls loads response).length = xs.length) ∧
    (∀ body o, toolCallBody response = some body → body ≠ [] →
       loads body = some (Json.obj o) →
       parse_tool_calls loads response = [Json.obj o]) ∧
    (∀ body, toolCallBody response = some body → body ≠ [] → loads body = none →
       parse_tool_calls loads response = []) ∧
    (toolCallBody response = none → parse_tool_calls loads response = []) ∧
    (∀ body, toolCallBody response = some body → body = [] →
       parse_tool_calls loads response = []) := by
  refine ⟨?_, ?_, ?_, ?_, ?_⟩
  · intro body xs hb hne hl
    cases body with
    | nil => exact absurd rfl hne
    | cons c t => constructor <;> simp [parse_tool_calls, hb, hl]
  · intro body o hb hne hl
    cases body with
    | nil => exact absurd rfl hne
    | cons c t => simp [parse_tool_calls, hb, hl]
  · intro body hb hne hl
    cases body with
    | nil => exact absurd rfl hne
    | cons c t => simp [parse_tool_calls, hb, hl]
  · intro hb
    simp [parse_tool_calls, hb]
  · intro body hb hbe
    subst hbe
    simp [parse_tool_calls, hb]

/-- Witness for C4 at concrete inputs: a well-formed one-object block
parses to that array, and marker-free text parses to the empty list. -/
theorem C4_parse_tool_calls_contract_witness :
    parse_tool_calls loadsStrBatch "<|FunctionCallBegin|>[\x22x\x22]<|FunctionCallEnd|>" =
      [Json.str "x"] ∧
    parse_tool_calls loadsStrBatch "no markers" = [] :=
  ⟨((C4_parse_tool_calls_contract loadsStrBatch
      "<|FunctionCallBegin|>[\x22x\x22]<|FunctionCallEnd|>").1
      "[\x22x\x22]".toList [Json.str "x"] rfl (by decide) rfl).1,
   (C4_parse_tool_calls_contract loadsStrBatch "no markers").2.2.2.1 rfl⟩

/-- C10: parse_tool_calls performs no structural validation of the
decoded JSON beyond list-wrapping: a decoded array is returned with its
elements unchanged whatever their shapes, and any decoded non-array value
is wrapped into a one-element list containing it; downstream dispatch
(dispatchCalls) then consumes these unvalidated elements as tool calls. -/
theorem C10_parse_no_validation (loads : List Char → Option Json) (response : String)
    (body : List Char) (hb : toolCallBody response = some body) (hne : body ≠ []) :
    (∀ xs, loads body = some (Json.arr xs) → parse_tool_calls loads response = xs) ∧
    (∀ v, loads body = some v → (∀ xs, v ≠ Json.arr xs) →
       parse_tool_calls loads response = [v]) := by
  constructor
  · intro xs hl
    cases body with
    | nil => exact absurd rfl hne
    | cons c t => simp [parse_tool_calls, hb, hl]
  · intro v hl hnv
    cases body with
    | nil => exact absurd rfl hne
    | cons c t =>
      cases v with
      | arr xs => exact absurd rfl (hnv xs)
      | null => simp [parse_tool_calls, hb, hl]
      | bool b => simp [parse_tool_calls, hb, hl]
      | num q => simp [parse_tool_calls, hb, hl]
      | str t2 => simp [parse_tool_calls, hb, hl]
      | obj o => simp [parse_tool_calls, hb, hl]

/-- Witness for C10: a body decoding to a bare string is wrapped into a
one-element list containing that string unchanged. -/
theorem C10_parse_no_validation_witness :
    parse_tool_calls loadsBareStr "<|FunctionCallBegin|>s<|FunctionCallEnd|>" =
      [Json.str "bare"] :=
  (C10_parse_no_validation loadsBareStr "<|FunctionCallBegin|>s<|FunctionCallEnd|>"
      "s".toList rfl (by decide)).2 (Json.str "bare") rfl
      (fun xs h => Json.noConfusion h)

/-- Counterexample for C8: a response that contains the decomposition
marker (and not the rewrite marker) but whose only numbered line starts
with 4. yields a query_analysis dict with NO action key at all (neither
decompose nor none), refuting the claim that the selected action is
decompose whenever the marker is present. -/
theorem C8_counterexample :
    containsSub "拆解后的子问题:\n4. four".toList decomposeMarker = true ∧
    containsSub "拆解后的子问题:\n4. four".toList rewriteMarker = false ∧
    (applyAnalysis "q" "拆解后的子问题:\n4. four").2.action = none ∧
    (applyAnalysis "q" "拆解后的子问题:\n4. four").2.action ≠ some "decompose" := by
  refine ⟨rfl, rfl, rfl, ?_⟩
  intro h
  exact Option.noConfusion h

/-- C8 (amended): when the analysis response contains the decomposition
marker and not the rewrite marker, the selected action is decompose with
the sub-questions extracted from the lines after the marker that begin
with 1., 2. or 3. (extractSubQuestions), PROVIDED at least one such line
exists; when no line qualifies, no action key is recorded at all (the
analysis dict has neither decompose nor none); when neither marker is
present, the selected action is none. -/
theorem C8_analyze_actions (q resp : String) :
    (containsSub resp.toList rewriteMarker = false →
     containsSub resp.toList decomposeMarker = true →
       ((extractSubQuestions resp ≠ [] →
          (applyAnalysis q resp).2.action = some "decompose" ∧
          (applyAnalysis q resp).2.subQuestions = some (extractSubQuestions resp)) ∧
        (extractSubQuestions resp = [] →
          (applyAnalysis q resp).2.action = none ∧
          (applyAnalysis q resp).2.subQuestions = none))) ∧
    (containsSub resp.toList rewriteMarker = false →
     containsSub resp.toList decomposeMarker = false →
       (applyAnalysis q resp).2.action = some "none") := by
  constructor
  · intro hrw hdc
    have hrw2 : containsSub resp.data rewriteMarker = false := hrw
    have hdc2 : containsSub resp.data decomposeMarker = true := hdc
    constructor
    · intro hne
      have hie : (extractSubQuestions resp).isEmpty = false := by
        cases h : extractSubQuestions resp with
        | nil => exact absurd h hne
        | cons a t => rfl
      constructor <;> simp [applyAnalysis, hrw2, hdc2, hie]
    · intro he
      have hie : (extractSubQuestions resp).isEmpty = true := by
        rw [he]; rfl
      constructor <;> simp [applyAnalysis, hrw2, hdc2, hie]
  · intro hrw hdc
    have hrw2 : containsSub resp.data rewriteMarker = false := hrw
    have hdc2 : containsSub resp.data decomposeMarker = false := hdc
    simp [applyAnalysis, hrw2, hdc2]

/-- Witness for C8 (amended) at concrete inputs: a 1.-numbered line
selects decompose, and marker-free text selects none. -/
theorem C8_analyze_actions_witness :
    (applyAnalysis "q" "拆解后的子问题:\n1. a").2.action = some "decompose" ∧
    (applyAnalysis "q" "nothing here").2.action = some "none" :=
  ⟨(((C8_analyze_actions "q" "拆解后的子问题:\n1. a").1 rfl rfl).1 (by decide)).1,
   (C8_analyze_actions "q" "nothing here").2 rfl rfl⟩

/-- One add_interaction step turns the last-N view of the previously
appended entries into the last-N view with the new entry appended. -/
theorem add_interaction_lastN (m : Mem) (A : List Interaction) (r c : String) (md : Json)
    (h : m.history = lastN m.maxHistorySize A) :
    (m.add_interaction r c md).history =
      lastN m.maxHistorySize (A ++ [{ role := r, content := c, metadata := md }]) ∧
    (m.add_interaction r c md).maxHistorySize = m.maxHistorySize := by
  constructor
  case right =>
    simp only [Mem.add_interaction]
    split <;> rfl
  case left =>
    have hlen : m.history.length = A.length - (A.length - m.maxHistorySize) := by
      rw [h]; simp [lastN]
    simp only [Mem.add_interaction]
    by_cases hAN : A.length < m.maxHistorySize
    · have h0 : A.length - m.maxHistorySize = 0 := by omega
      have hA : m.history = A := by rw [h]; simp [lastN, h0]
      have hcond : ¬ ((m.history ++ [({ role := r, content := c, metadata := md } : Interaction)]).length > m.maxHistorySize) := by
        rw [hA]; simp; omega
      rw [if_neg hcond, hA]
      have h1 : A.length + 1 - m.maxHistorySize = 0 := by omega
      simp [lastN, h1]
    · push_neg at hAN
      have hlenN : m.history.length = m.maxHistorySize := by omega
      have hcond : (m.history ++ [({ role := r, content := c, metadata := md } : Interaction)]).length > m.maxHistorySize := by
        simp [hlenN]
      rw [if_pos hcond, h]
      by_cases hN0 : m.maxHistorySize = 0
      · simp [lastN, hN0, h]
      · simp only [lastN]
        have hd2 : (A ++ [({ role := r, content := c, metadata := md } : Interaction)]).length - m.maxHistorySize ≤ A.length := by
          simp; omega
        rw [List.drop_append_of_le_length hd2]
        have hd3 : (1 : Nat) ≤ (A.drop (A.length - m.maxHistorySize)).length := by
          simp; omega
        rw [List.drop_append_of_le_length hd3]
        rw [List.drop_drop]
        have hidx : A.length - m.maxHistorySize + 1 =
            (A ++ [({ role := r, content := c, metadata := md } : Interaction)]).length -
              m.maxHistorySize := by
          simp only [List.length_append, List.length_cons, List.length_nil]
          omega
        rw [hidx]

/-- Folding interactions into the store keeps the history equal to the
last-N view of everything appended. -/
theorem addAll_lastN (items : List (String × String)) :
    ∀ (m : Mem) (A : List Interaction), m.history = lastN m.maxHistorySize A →
    (m.addAll items).history = lastN m.maxHistorySize (A ++ items.map mkInteraction) ∧
    (m.addAll items).maxHistorySize = m.maxHistorySize := by
  induction items with
  | nil =>
    intro m A h
    refine ⟨?_, rfl⟩
    simpa [Mem.addAll] using h
  | cons p rest ih =>
    intro m A h
    have step := add_interaction_lastN m A p.1 p.2 (Json.obj []) h
    have hstep : (m.add_interaction p.1 p.2).history =
        lastN (m.add_interaction p.1 p.2).maxHistorySize (A ++ [mkInteraction p]) := by
      rw [step.2]; exact step.1
    have := ih (m.add_interaction p.1 p.2) (A ++ [mkInteraction p]) hstep
    refine ⟨?_, ?_⟩
    · have h1 := this.1
      rw [step.2] at h1
      simpa [Mem.addAll, List.append_assoc] using h1
    · have h2 := this.2
      rw [step.2] at h2
      simpa [Mem.addAll] using h2

/-- C7: for every capacity N and every sequence of add_interaction calls
on a fresh MemoryManager (agent_env.py 105-124), the retained history is
exactly the N most recent entries in insertion order (oldest evicted
first), and after every prefix of the sequence at most N entries are
retained. -/
theorem C7_memory_bounded_fifo (N : Nat) (items : List (String × String)) (k : Nat) :
    ((Mem.init N).addAll items).history = lastN N (items.map mkInteraction) ∧
    ((Mem.init N).addAll (items.take k)).history.length ≤ N := by
  have base : (Mem.init N).history = lastN (Mem.init N).maxHistorySize ([] : List Interaction) := by
    simp [Mem.init, lastN]
  constructor
  · simpa [Mem.init] using (addAll_lastN items (Mem.init N) [] base).1
  · have h2 := (addAll_lastN (items.take k) (Mem.init N) [] base).1
    rw [h2]
    simp [Mem.init, lastN]
    omega

/-- A string append with a non-empty left part is non-empty. -/
theorem strAppend_ne_empty_left (a b : String) (h : a ≠ "") : a ++ b ≠ "" := by
  cases a with
  | mk la =>
    cases b with
    | mk lb =>
      intro hab
      apply h
      have hd : la ++ lb = [] := congrArg String.data hab
      have hla : la = [] := (List.append_eq_nil.mp hd).1
      rw [hla]

/-- A string append with a non-empty right part is non-empty. -/
theorem strAppend_ne_empty_right (a b : String) (h : b ≠ "") : a ++ b ≠ "" := by
  cases a with
  | mk la =>
    cases b with
    | mk lb =>
      intro hab
      apply h
      have hd : la ++ lb = [] := congrArg String.data hab
      have hlb : lb = [] := (List.append_eq_nil.mp hd).2
      rw [hlb]

/-- Counterexample for C9: with a non-empty history, a compress call whose
model collaborator returns the empty string stores an empty compressed
memory, so get_context_with_memory returns the context UNCHANGED — it
does not strictly contain the context preceded by a summary section, as
the claim asserts for every post-compress state. -/
theorem C9_counterexample :
    memC9.history.length = 1 ∧
    (memC9.compress_with (Except.ok "")).compressedMemory = "" ∧
    (memC9.compress_with (Except.ok "")).get_context_with_memory "ctx" = "ctx" :=
  ⟨rfl, rfl, rfl⟩

/-- Three-part string append with a non-empty head is non-empty. -/
theorem strAppend3_ne_empty (a x b : String) (h : a ≠ "") : a ++ x ++ b ≠ "" :=
  strAppend_ne_empty_left _ _ (strAppend_ne_empty_left _ _ h)

/-- C9 (amended): get_context_with_memory is the identity whenever the
stored compressed memory is empty (in particular before any compress
call, agent_env.py 192-201); and after a compress call with non-empty
history, PROVIDED the model collaborator raised (deterministic fallback)
or returned non-empty text, the result is a non-empty prefix (the summary
section) followed by the original context as its suffix. A model that
returns the empty string leaves the identity behavior (the
counterexample). -/
theorem C9_context_with_memory (m : Mem) (ctx : String) :
    (m.compressedMemory = "" → m.get_context_with_memory ctx = ctx) ∧
    (m.history ≠ [] →
      (∀ e : String, ∃ p, p ≠ "" ∧
        (m.compress_with (Except.error e)).get_context_with_memory ctx = p ++ ctx) ∧
      (∀ r : String, r ≠ "" → ∃ p, p ≠ "" ∧
        (m.compress_with (Except.ok r)).get_context_with_memory ctx = p ++ ctx)) := by
  constructor
  · intro h
    simp [Mem.get_context_with_memory, h]
  · intro hne
    have hie : m.history.isEmpty = false := by
      cases h : m.history with
      | nil => exact absurd h hne
      | cons a t => rfl
    constructor
    · intro e
      have hcm : (m.compress_with (Except.error e)).compressedMemory =
          "[" ++ toString m.history.length ++ "条对话历史，包含用户查询和代理回答]" := by
        simp [Mem.compress_with, hie]
      have hcmne : (m.compress_with (Except.error e)).compressedMemory ≠ "" := by
        rw [hcm]
        exact strAppend3_ne_empty _ _ _ (by decide)
      refine ⟨"[历史交互摘要]\n" ++
        ("[" ++ toString m.history.length ++ "条对话历史，包含用户查询和代理回答]") ++
        "\n\n[当前信息]\n", strAppend3_ne_empty _ _ _ (by decide), ?_⟩
      unfold Mem.get_context_with_memory
      rw [if_pos hcmne, hcm]
    · intro r hr
      by_cases htr : r.length > m.maxCompressedSize
      · have hcm : (m.compress_with (Except.ok r)).compressedMemory =
            strTake r m.maxCompressedSize ++ "..." := by
          simp [Mem.compress_with, hie, htr]
        have hcmne : (m.compress_with (Except.ok r)).compressedMemory ≠ "" := by
          rw [hcm]
          exact strAppend_ne_empty_right _ _ (by decide)
        refine ⟨"[历史交互摘要]\n" ++ (strTake r m.maxCompressedSize ++ "...") ++
          "\n\n[当前信息]\n", strAppend3_ne_empty _ _ _ (by decide), ?_⟩
        unfold Mem.get_context_with_memory
        rw [if_pos hcmne, hcm]
      · have hcm : (m.compress_with (Except.ok r)).compressedMemory = r := by
          simp [Mem.compress_with, hie, htr]
        have hcmne : (m.compress_with (Except.ok r)).compressedMemory ≠ "" := by
          rw [hcm]; exact hr
        refine ⟨"[历史交互摘要]\n" ++ r ++ "\n\n[当前信息]\n",
          strAppend3_ne_empty _ _ _ (by decide), ?_⟩
        unfold Mem.get_context_with_memory
        rw [if_pos hcmne, hcm]

/-- Witness for C9 (amended) at a concrete store: one recorded
interaction, fallback summary on a raising model, and a non-empty model
summary. -/
theorem C9_context_with_memory_witness :
    ((Mem.init).get_context_with_memory "c" = "c") ∧
    (∃ p, p ≠ "" ∧ (memC9.compress_with (Except.error "boom")).get_context_with_memory "c" = p ++ "c") ∧
    (∃ p, p ≠ "" ∧ (memC9.compress_with (Except.ok "sum")).get_context_with_memory "c" = p ++ "c") :=
  ⟨(C9_context_with_memory Mem.init "c").1 rfl,
   ((C9_context_with_memory memC9 "c").2
     (fun h => absurd (congrArg List.length h) (by decide))).1 "boom",
   ((C9_context_with_memory memC9 "c").2
     (fun h => absurd (congrArg List.length h) (by decide))).2 "sum" (by decide)⟩

/-- Replacing the entry of a different key in the index does not change a
lookup. -/
theorem find_map_setEntry (k2 v2 k : String) (h : ¬ k2 = k) :
    ∀ t : List (String × String),
    (t.map (fun p => if p.1 == k2 then (k2, v2) else p)).find? (fun p => p.1 == k) =
      t.find? (fun p => p.1 == k)
  | [] => rfl
  | q :: t => by
    by_cases hq : q.1 = k2
    · have e1 : (q.1 == k2) = true := by simp [hq]
      have e2 : (((k2, v2) : String × String).1 == k) = false := by simp [h]
      have e3 : (q.1 == k) = false := by simp [hq, h]
      simp only [List.map_cons, e1, if_true, List.find?, e2, e3]
      exact find_map_setEntry k2 v2 k h t
    · have e1 : (q.1 == k2) = false := by simp [hq]
      simp only [List.map_cons, e1, Bool.false_eq_true, if_false]
      by_cases hqk : q.1 = k
      · have e4 : (q.1 == k) = true := by simp [hqk]
        simp only [List.find?, e4]
      · have e4 : (q.1 == k) = false := by simp [hqk]
        simp only [List.find?, e4]
        exact find_map_setEntry k2 v2 k h t

/-- Lookup of a different key passes through a dict assignment on the
smol knowledge index. -/
theorem smolAssocSet_find_ne (l : List (String × String)) (k2 v2 k : String) (h : ¬ k2 = k) :
    (smolAssocSet l k2 v2).find? (fun p => p.1 == k) = l.find? (fun p => p.1 == k) := by
  unfold smolAssocSet
  split
  · exact find_map_setEntry k2 v2 k h l
  · rw [List.find?_append]
    have e : ([((k2, v2) : String × String)].find? (fun p => p.1 == k)) = none := by
      have e2 : (((k2, v2) : String × String).1 == k) = false := by simp [h]
      simp only [List.find?, e2]
    rw [e]
    cases l.find? (fun p => p.1 == k) <;> rfl

/-- The knowledge-to-log invariant: every key served by the index has a
TaskStep tagged with it still present in the step log; it is preserved by
both memory operations. -/
theorem smol_inv_step (m : SmolMem) (op : SmolOp)
    (h : ∀ k, (m.get_knowledge k).isSome → m.hasTaskFor k = true) :
    ∀ k, ((m.applyOp op).get_knowledge k).isSome → (m.applyOp op).hasTaskFor k = true := by
  have hens : ∀ k, ((m.ensure_history_limit).get_knowledge k).isSome →
      (m.ensure_history_limit).hasTaskFor k = true := by
    intro k hk
    unfold SmolMem.ensure_history_limit at hk ⊢
    by_cases hc : m.steps.length ≥ m.maxHistorySize
    · rw [if_pos hc] at hk
      simp [SmolMem.get_knowledge] at hk
    · rw [if_neg hc] at hk ⊢
      exact h k hk
  cases op with
  | addInter r c =>
    intro k hk
    simp only [SmolMem.applyOp, SmolMem.add_interaction] at hk ⊢
    have hk2 : ((m.ensure_history_limit).get_knowledge k).isSome := hk
    have htask := hens k hk2
    simp only [SmolMem.hasTaskFor, List.any_append] at htask ⊢
    rw [htask]
    rfl
  | addKnow k2 v2 =>
    intro k hk
    simp only [SmolMem.applyOp, SmolMem.add_knowledge] at hk ⊢
    by_cases hkk : k2 = k
    · subst hkk
      simp [SmolMem.hasTaskFor, List.any_append, List.any_cons]
    · have hk2 : ((m.ensure_history_limit).get_knowledge k).isSome := by
        simp only [SmolMem.get_knowledge] at hk ⊢
        rw [smolAssocSet_find_ne _ _ _ _ hkk] at hk
        exact hk
      have htask := hens k hk2
      simp only [SmolMem.hasTaskFor, List.any_append] at htask ⊢
      rw [htask]
      rfl

/-- The invariant holds of every store reachable from a fresh one. -/
theorem smol_inv_ops (N : Nat) (ops : List SmolOp) :
    ∀ k, (((SmolMem.init N).applyOps ops).get_knowledge k).isSome →
      ((SmolMem.init N).applyOps ops).hasTaskFor k = true := by
  suffices h : ∀ (m : SmolMem), (∀ k, (m.get_knowledge k).isSome → m.hasTaskFor k = true) →
      ∀ k, ((m.applyOps ops).get_knowledge k).isSome → (m.applyOps ops).hasTaskFor k = true by
    apply h
    intro k hk
    simp [SmolMem.init, SmolMem.get_knowledge] at hk
  induction ops with
  | nil => intro m h; exact h
  | cons op rest ih =>
    intro m h
    exact ih (m.applyOp op) (smol_inv_step m op h)

/-- C2: for the smolagents-backed memory store (smol_memory_manager.py),
whenever an append operation finds the bounded log at its capacity (the
truncation trigger of _ensure_history_limit), the whole knowledge index
is cleared before the append, so after the operation get_knowledge
returns None for every key other than the one the operation itself may
add; and, over all operation sequences from a fresh store, knowledge-key
lookups only succeed for keys whose TaskStep entry is still present in
the bounded log. -/
theorem C2_knowledge_index_cleared :
    (∀ (m : SmolMem) (op : SmolOp) (k : String),
       m.maxHistorySize ≤ m.steps.length →
       SmolOp.keyAdded op ≠ some k →
       (m.applyOp op).get_knowledge k = none) ∧
    (∀ (N : Nat) (ops : List SmolOp) (k : String),
       (((SmolMem.init N).applyOps ops).get_knowledge k).isSome →
       ((SmolMem.init N).applyOps ops).hasTaskFor k = true) := by
  constructor
  · intro m op k hfull hne
    have hens : (m.ensure_history_limit).knowledgeIndex = [] := by
      unfold SmolMem.ensure_history_limit
      rw [if_pos hfull]
    cases op with
    | addInter r c =>
      simp [SmolMem.applyOp, SmolMem.add_interaction, SmolMem.get_knowledge, hens]
    | addKnow k2 v2 =>
      have hkk : ¬ k2 = k := by
        intro h
        exact hne (by rw [h]; rfl)
      have e : (((k2, v2) : String × String).1 == k) = false := by simp [hkk]
      simp only [SmolMem.applyOp, SmolMem.add_knowledge, SmolMem.get_knowledge, hens]
      simp [smolAssocSet, List.find?, e]
  · exact smol_inv_ops

/-- Witness for C2 at a concrete store: a store of capacity 2 holding a
knowledge entry for key a and one interaction; one more append evicts and
clears, so the lookup of a fails; and on a fresh store a stored key has
its TaskStep in the log. -/
theorem C2_knowledge_index_cleared_witness :
    (((SmolMem.init 2).applyOps [SmolOp.addKnow "a" "1", SmolOp.addInter "u" "x"]).applyOp
        (SmolOp.addInter "u" "y")).get_knowledge "a" = none ∧
    ((SmolMem.init 2).applyOps [SmolOp.addKnow "b" "2"]).hasTaskFor "b" = true :=
  ⟨C2_knowledge_index_cleared.1
      ((SmolMem.init 2).applyOps [SmolOp.addKnow "a" "1", SmolOp.addInter "u" "x"])
      (SmolOp.addInter "u" "y") "a" (by decide) (by decide),
   C2_knowledge_index_cleared.2 2 [SmolOp.addKnow "b" "2"] "b" (by decide)⟩

/-- Counterexample for C5: an evaluation response decoding to a dict
whose need_iteration field is JSON true (a truthy value) with a good
overall rating yields state.need_iteration = false, because agent.py 742
compares the field with the literal string 是 rather than testing
truthiness; the claim's reading (specNeedIteration) says true. -/
theorem C5_counterexample :
    (evalResultState (evaluateAnswer cfgSmall behEvTruthy loadsEvTruthy stAnswered
        initSState)).needIteration = some false ∧
    (evalResultState (evaluateAnswer cfgSmall behEvTruthy loadsEvTruthy stAnswered
        initSState)).evaluation = some evTruthy ∧
    specNeedIteration evTruthy = true ∧
    pyTruthy (jGetD evTruthy "need_iteration" Json.null) = true :=
  ⟨rfl, rfl, rfl, rfl⟩

/-- C5 (amended): after _evaluate_answer runs on a non-empty answer (with
the iterations key present, as on every state run builds), the stored
need_iteration flag equals: the parsed evaluation's need_iteration field
is the literal string 是, or its overall_rating is 较差 or 差 — and it is
false for every non-dict evaluation; an evaluation response without
braces, or whose brace slice fails to parse, yields the documented
default dict, whose need_iteration decision is false. -/
theorem C5_need_iteration (cfg : Cfg) (beh : Beh) (loads : List Char → Option Json)
    (st : AState) (s : SState) (hans : st.answer ≠ "") (hit : st.iterations.isSome) :
    (∀ st2 s2, evaluateAnswer cfg beh loads st s = (Except.ok st2, s2) →
       ∃ ev, st2.evaluation = some ev ∧
         st2.needIteration = some (match ev with
           | Json.obj f => evalNeedIteration (Json.obj f)
           | _ => false)) ∧
    (∀ resp : String,
       containsSub resp.toList ['\x7b'] = false ∨ containsSub resp.toList ['\x7d'] = false →
       parseEvaluation loads resp = fallbackEval "无法解析详细评估结果") ∧
    (∀ resp body, braceSliceCore resp.toList = some body → loads body = none →
       parseEvaluation loads resp = fallbackEval "评估结果解析错误: " ∨
       parseEvaluation loads resp = fallbackEval "无法解析详细评估结果") ∧
    (∀ msg, evalNeedIteration (fallbackEval msg) = false) := by
  refine ⟨?_, ?_, ?_, ?_⟩
  · intro st2 s2 heq
    unfold evaluateAnswer at heq
    rw [if_neg hans] at heq
    split at heq
    · rename_i hnone
      rw [hnone] at hit
      simp at hit
    split at heq
    · simp only [Prod.mk.injEq, Except.ok.injEq] at heq
      obtain ⟨rfl, rfl⟩ := heq
      exact ⟨_, rfl, rfl⟩
    split at heq
    · simp only [Prod.mk.injEq, Except.ok.injEq] at heq
      obtain ⟨rfl, rfl⟩ := heq
      exact ⟨_, rfl, rfl⟩
    rename_i resp s3 hgen
    cases hev : parseEvaluation loads resp with
    | obj f =>
      rw [hev] at heq
      simp only [Prod.mk.injEq, Except.ok.injEq] at heq
      obtain ⟨rfl, rfl⟩ := heq
      exact ⟨_, rfl, rfl⟩
    | null =>
      rw [hev] at heq
      cases herr : st.errors with
      | none =>
        simp [evalOuterCatch, appendError, herr] at heq
      | some l =>
        simp only [evalOuterCatch, appendError, herr, Option.isNone_some, Bool.false_eq_true,
          if_false, Prod.mk.injEq, Except.ok.injEq] at heq
        obtain ⟨rfl, rfl⟩ := heq
        exact ⟨_, rfl, rfl⟩
    | bool b =>
      rw [hev] at heq
      cases herr : st.errors with
      | none =>
        simp [evalOuterCatch, appendError, herr] at heq
      | some l =>
        simp only [evalOuterCatch, appendError, herr, Option.isNone_some, Bool.false_eq_true,
          if_false, Prod.mk.injEq, Except.ok.injEq] at heq
        obtain ⟨rfl, rfl⟩ := heq
        exact ⟨_, rfl, rfl⟩
    | num q =>
      rw [hev] at heq
      cases herr : st.errors with
      | none =>
        simp [evalOuterCatch, appendError, herr] at heq
      | some l =>
        simp only [evalOuterCatch, appendError, herr, Option.isNone_some, Bool.false_eq_true,
          if_false, Prod.mk.injEq, Except.ok.injEq] at heq
        obtain ⟨rfl, rfl⟩ := heq
        exact ⟨_, rfl, rfl⟩
    | str t =>
      rw [hev] at heq
      cases herr : st.errors with
      | none =>
        simp [evalOuterCatch, appendError, herr] at heq
      | some l =>
        simp only [evalOuterCatch, appendError, herr, Option.isNone_some, Bool.false_eq_true,
          if_false, Prod.mk.injEq, Except.ok.injEq] at heq
        obtain ⟨rfl, rfl⟩ := heq
        exact ⟨_, rfl, rfl⟩
    | arr a =>
      rw [hev] at heq
      cases herr : st.errors with
      | none =>
        simp [evalOuterCatch, appendError, herr] at heq
      | some l =>
        simp only [evalOuterCatch, appendError, herr, Option.isNone_some, Bool.false_eq_true,
          if_false, Prod.mk.injEq, Except.ok.injEq] at heq
        obtain ⟨rfl, rfl⟩ := heq
        exact ⟨_, rfl, rfl⟩
  · intro resp hor
    have hcf : (containsSub resp.toList ['\x7b'] && containsSub resp.toList ['\x7d']) = false := by
      rcases hor with h | h
      · rw [h, Bool.false_and]
      · rw [h, Bool.and_false]
    have hcf2 : (containsSub resp.data ['\x7b'] && containsSub resp.data ['\x7d']) = false := hcf
    simp only [parseEvaluation]
    rw [if_neg (by simp [hcf2])]
  · intro resp body hb hl
    by_cases hc : (containsSub resp.toList ['\x7b'] && containsSub resp.toList ['\x7d']) = true
    · left
      simp only [parseEvaluation]
      rw [if_pos hc]
      simp only [hb, hl]
    · right
      simp only [parseEvaluation]
      rw [if_neg hc]
  · intro msg
    rfl

/-- Witness for C5 at the concrete evaluator run of the counterexample
model: the stored need_iteration flag matches the literal-comparison
formula on the parsed evaluation. -/
theorem C5_need_iteration_witness :
    ∃ ev,
      (evalResultState (evaluateAnswer cfgSmall behEvTruthy loadsEvTruthy stAnswered
          initSState)).evaluation = some ev ∧
      (evalResultState (evaluateAnswer cfgSmall behEvTruthy loadsEvTruthy stAnswered
          initSState)).needIteration =
        some (match ev with
          | Json.obj f => evalNeedIteration (Json.obj f)
          | _ => false) :=
  (C5_need_iteration cfgSmall behEvTruthy loadsEvTruthy stAnswered initSState
      (by decide) (by rfl)).1
    (evalResultState (evaluateAnswer cfgSmall behEvTruthy loadsEvTruthy stAnswered initSState))
    (evaluateAnswer cfgSmall behEvTruthy loadsEvTruthy stAnswered initSState).2
    (by rfl)


/-- Counterexample for C6: a parsed batch may contain a non-dict element
(here a JSON string, produced by a well-formed marker pair around a list
of strings), and dispatching it raises AttributeError out of the batch
loop instead of producing a failure envelope; and even a batch whose
single element is a dict raises — a list-valued name makes the
membership test of agent.py 319 raise TypeError. The claim says
dispatching a batch never propagates an exception. -/
theorem C6_counterexample :
    parse_tool_calls loadsStrBatch "<|FunctionCallBegin|>[\x22x\x22]<|FunctionCallEnd|>" = [Json.str "x"] ∧
    (dispatchCalls cfgOneTool behToolRaises [Json.str "x"] 0 true [] initSState).1 =
      Except.error { name := "AttributeError", msg := "\x27str\x27 object has no attribute \x27get\x27" } ∧
    (dispatchCalls cfgOneTool behToolRaises [Json.obj [("name", Json.arr [Json.str "x"])]]
        0 true [] initSState).1 =
      Except.error { name := "TypeError", msg := "unhashable type: \x27list\x27" } :=
  ⟨rfl, rfl, rfl⟩

/-- A hashable name value makes the membership test of agent.py 319
return normally. -/
theorem isKnownTool_ok (cfg : Cfg) (v : Json) (hv : jHashable v = true) :
    ∃ o, isKnownTool cfg v = Except.ok o := by
  cases v with
  | null => exact ⟨none, rfl⟩
  | bool b => exact ⟨none, rfl⟩
  | num q => exact ⟨none, rfl⟩
  | str t => exact ⟨_, rfl⟩
  | arr a => simp [jHashable] at hv
  | obj f => simp [jHashable] at hv

/-- Under a batch of dict elements with hashable name values the
dispatch loop never raises: every path returns a normal triple. -/
theorem dispatchCalls_no_raise (cfg : Cfg) (beh : Beh) :
    ∀ (calls : List Json) (cnt : Nat) (af : Bool) (acc : List Json) (s : SState),
      (∀ c ∈ calls, goodCall c = true) →
      ∃ res cnt2 af2 s2,
        dispatchCalls cfg beh calls cnt af acc s = (Except.ok (res, cnt2, af2), s2)
  | [], cnt, af, acc, s, _ => ⟨acc, cnt, af, s, rfl⟩
  | tc :: rest, cnt, af, acc, s, hobj => by
    have htc : goodCall tc = true := hobj tc (List.mem_cons_self tc rest)
    have hrest : ∀ c ∈ rest, goodCall c = true := fun c hc => hobj c (List.mem_cons_of_mem tc hc)
    cases tc with
    | null => simp [goodCall, jIsObj] at htc
    | bool b => simp [goodCall, jIsObj] at htc
    | num q => simp [goodCall, jIsObj] at htc
    | str t => simp [goodCall, jIsObj] at htc
    | arr a => simp [goodCall, jIsObj] at htc
    | obj fields =>
      have hname : jHashable (jGetD (Json.obj fields) "name" Json.null) = true := by
        simpa [goodCall, jIsObj] using htc
      obtain ⟨o, hko⟩ := isKnownTool_ok cfg _ hname
      simp only [dispatchCalls, callToolRun]
      cases o with
      | none =>
        simp only [hko]
        exact dispatchCalls_no_raise cfg beh rest cnt af
          (acc ++ [unknownToolEnvelope (jGetD (Json.obj fields) "name" Json.null)]) s hrest
      | some nm =>
        simp only [hko]
        cases hrun : beh.toolRun s.idx nm (jGetD (Json.obj fields) "parameters" (Json.obj [])) with
        | ok v =>
          simp only [hrun]
          by_cases hb : cnt + 1 ≥ cfg.maxToolCalls
          · rw [if_pos hb]
            exact ⟨acc ++ [successEnvelope nm v], cnt + 1, false, _, rfl⟩
          · rw [if_neg hb]
            exact dispatchCalls_no_raise cfg beh rest (cnt + 1) false
              (acc ++ [successEnvelope nm v]) { s with idx := s.idx + 1, counted := s.counted + 1 } hrest
        | error e =>
          simp only [hrun]
          by_cases hb : cnt + 1 ≥ cfg.maxToolCalls
          · rw [if_pos hb]
            exact ⟨acc ++ [failureEnvelope nm e.msg], cnt + 1, af, _, rfl⟩
          · rw [if_neg hb]
            exact dispatchCalls_no_raise cfg beh rest (cnt + 1) af
              (acc ++ [failureEnvelope nm e.msg]) { s with idx := s.idx + 1, counted := s.counted + 1 } hrest

/-- Under a batch of dict elements with hashable name values, within the
tool-call budget, the dispatch loop returns exactly the accumulated
envelopes followed by the per-element envelopes at the running oracle
index. -/
theorem dispatchCalls_envelopes (cfg : Cfg) (beh : Beh) :
    ∀ (calls : List Json) (cnt : Nat) (af : Bool) (acc : List Json) (s : SState),
      (∀ c ∈ calls, goodCall c = true) →
      cnt + calls.length ≤ cfg.maxToolCalls →
      ∃ cnt2 af2 s2,
        dispatchCalls cfg beh calls cnt af acc s =
          (Except.ok (acc ++ envelopedResults cfg beh calls s.idx, cnt2, af2), s2)
  | [], cnt, af, acc, s, _, _ => ⟨cnt, af, s, by simp [dispatchCalls, envelopedResults]⟩
  | tc :: rest, cnt, af, acc, s, hobj, hbud => by
    have htc : goodCall tc = true := hobj tc (List.mem_cons_self tc rest)
    have hrest : ∀ c ∈ rest, goodCall c = true := fun c hc => hobj c (List.mem_cons_of_mem tc hc)
    cases tc with
    | null => simp [goodCall, jIsObj] at htc
    | bool b => simp [goodCall, jIsObj] at htc
    | num q => simp [goodCall, jIsObj] at htc
    | str t => simp [goodCall, jIsObj] at htc
    | arr a => simp [goodCall, jIsObj] at htc
    | obj fields =>
      have hname : jHashable (jGetD (Json.obj fields) "name" Json.null) = true := by
        simpa [goodCall, jIsObj] using htc
      obtain ⟨o, hko⟩ := isKnownTool_ok cfg _ hname
      simp only [dispatchCalls, envelopedResults, callToolRun]
      cases o with
      | none =>
        simp only [hko]
        obtain ⟨cnt2, af2, s2, hrec⟩ := dispatchCalls_envelopes cfg beh rest cnt af
          (acc ++ [unknownToolEnvelope (jGetD (Json.obj fields) "name" Json.null)]) s hrest
          (by simp only [List.length_cons] at hbud; omega)
        refine ⟨cnt2, af2, s2, ?_⟩
        rw [hrec]
        simp
      | some nm =>
        simp only [hko]
        cases hrun : beh.toolRun s.idx nm (jGetD (Json.obj fields) "parameters" (Json.obj [])) with
        | ok v =>
          simp only [hrun]
          by_cases hb : cnt + 1 ≥ cfg.maxToolCalls
          · have hnil : rest = [] := by
              have h2 := hbud
              simp only [List.length_cons] at h2
              cases rest with
              | nil => rfl
              | cons r t => simp only [List.length_cons] at h2; omega
            subst hnil
            rw [if_pos hb]
            exact ⟨cnt + 1, false, { s with idx := s.idx + 1, counted := s.counted + 1 }, by simp [envelopedResults, hko, hrun]⟩
          · rw [if_neg hb]
            obtain ⟨cnt2, af2, s2, hrec⟩ := dispatchCalls_envelopes cfg beh rest (cnt + 1) false
              (acc ++ [successEnvelope nm v]) { s with idx := s.idx + 1, counted := s.counted + 1 }
              hrest (by simp only [List.length_cons] at hbud; omega)
            refine ⟨cnt2, af2, s2, ?_⟩
            rw [hrec]
            simp
        | error e =>
          simp only [hrun]
          by_cases hb : cnt + 1 ≥ cfg.maxToolCalls
          · have hnil : rest = [] := by
              have h2 := hbud
              simp only [List.length_cons] at h2
              cases rest with
              | nil => rfl
              | cons r t => simp only [List.length_cons] at h2; omega
            subst hnil
            rw [if_pos hb]
            exact ⟨cnt + 1, af, { s with idx := s.idx + 1, counted := s.counted + 1 }, by simp [envelopedResults, hko, hrun]⟩
          · rw [if_neg hb]
            obtain ⟨cnt2, af2, s2, hrec⟩ := dispatchCalls_envelopes cfg beh rest (cnt + 1) af
              (acc ++ [failureEnvelope nm e.msg]) { s with idx := s.idx + 1, counted := s.counted + 1 }
              hrest (by simp only [List.length_cons] at hbud; omega)
            refine ⟨cnt2, af2, s2, ?_⟩
            rw [hrec]
            simp

/-- C6 (amended): for a batch of parsed tool calls in which every element
is a dict whose name value is hashable, the dispatch loop never
propagates an exception, and — within the tool-call budget — returns
exactly one structured envelope per element: the unknown-tool failure
envelope for unregistered names, the success envelope for a registered
tool whose run returns, and the failure envelope carrying the exception
message for a registered tool whose run raises, each appended in batch
order. (The original claim is refuted for batches containing a non-dict
element, where .get raises AttributeError, and for dict elements with a
list- or dict-valued name, where the membership test of agent.py 319
raises TypeError; see the counterexample.) -/
theorem C6_dispatch_envelopes (cfg : Cfg) (beh : Beh) (calls : List Json)
    (cnt : Nat) (af : Bool) (acc : List Json) (s : SState)
    (hobj : ∀ c ∈ calls, goodCall c = true) :
    (∃ res cnt2 af2 s2,
        dispatchCalls cfg beh calls cnt af acc s = (Except.ok (res, cnt2, af2), s2)) ∧
    (cnt + calls.length ≤ cfg.maxToolCalls →
      ∃ cnt2 af2 s2,
        dispatchCalls cfg beh calls cnt af acc s =
          (Except.ok (acc ++ envelopedResults cfg beh calls s.idx, cnt2, af2), s2)) :=
  ⟨dispatchCalls_no_raise cfg beh calls cnt af acc s hobj,
   fun hbud => dispatchCalls_envelopes cfg beh calls cnt af acc s hobj hbud⟩

/-- Witness for C6 on a concrete two-element batch: a registered tool
whose run raises, then an unknown name; the dispatch returns the two
failure envelopes in order without raising. -/
theorem C6_dispatch_envelopes_witness :
    ∃ cnt2 af2 s2,
      dispatchCalls cfgOneTool behToolRaises
          [Json.obj [("name", Json.str "retrieve_documents")], Json.obj [("name", Json.str "nope")]]
          0 true [] initSState =
        (Except.ok ([] ++ envelopedResults cfgOneTool behToolRaises
            [Json.obj [("name", Json.str "retrieve_documents")], Json.obj [("name", Json.str "nope")]]
            initSState.idx, cnt2, af2), s2) :=
  (C6_dispatch_envelopes cfgOneTool behToolRaises
      [Json.obj [("name", Json.str "retrieve_documents")], Json.obj [("name", Json.str "nope")]]
      0 true [] initSState (by decide)).2 (by decide)

/-- C1: refuted — run() does not always return a SessionResult. agent.py
calls time.sleep(1) on the retry path (line 188) but never imports time,
so the first retried attempt raises NameError out of run(): here a model
whose generate raises on the very first call (the query-analysis render
succeeds, the generate raises, the attempt fails, retry_count becomes 1,
and the time.sleep(1) at the top of the retry body raises NameError). -/
theorem C1_run_raises_NameError :
    (runAgent {} behModelRaises jloadsNone "q" 3 initSState).1 =
      Except.error (MErr.py { name := "NameError", msg := "name \x27time\x27 is not defined" }) :=
  rfl

/-- The tool-call counter of the dispatch loop never decreases, and a
batch that clears the all-failed flag made at least one counted tool
invocation. -/
theorem dispatchCalls_progress (cfg : Cfg) (beh : Beh) :
    ∀ (calls : List Json) (cnt : Nat) (af : Bool) (acc : List Json) (s : SState)
      (res : List Json) (cnt2 : Nat) (af2 : Bool) (s2 : SState),
      (∀ c ∈ calls, goodCall c = true) →
      dispatchCalls cfg beh calls cnt af acc s = (Except.ok (res, cnt2, af2), s2) →
      cnt ≤ cnt2 ∧ (af = true → af2 = false → cnt < cnt2)
  | [], cnt, af, acc, s, res, cnt2, af2, s2, _, heq => by
    simp only [dispatchCalls, Prod.mk.injEq, Except.ok.injEq] at heq
    obtain ⟨⟨h1, h2, h3⟩, h4⟩ := heq
    subst h2; subst h3
    exact ⟨Nat.le_refl cnt, fun ha hb => absurd (ha ▸ hb) (by simp)⟩
  | tc :: rest, cnt, af, acc, s, res, cnt2, af2, s2, hobj, heq => by
    have htc : goodCall tc = true := hobj tc (List.mem_cons_self tc rest)
    have hrest : ∀ c ∈ rest, goodCall c = true := fun c hc => hobj c (List.mem_cons_of_mem tc hc)
    cases tc with
    | null => simp [goodCall, jIsObj] at htc
    | bool b => simp [goodCall, jIsObj] at htc
    | num q => simp [goodCall, jIsObj] at htc
    | str t => simp [goodCall, jIsObj] at htc
    | arr a => simp [goodCall, jIsObj] at htc
    | obj fields =>
      have hname : jHashable (jGetD (Json.obj fields) "name" Json.null) = true := by
        simpa [goodCall, jIsObj] using htc
      obtain ⟨o, hko⟩ := isKnownTool_ok cfg _ hname
      simp only [dispatchCalls, callToolRun] at heq
      cases o with
      | none =>
        simp only [hko] at heq
        exact dispatchCalls_progress cfg beh rest cnt af _ s res cnt2 af2 s2 hrest heq
      | some nm =>
        simp only [hko] at heq
        cases hrun : beh.toolRun s.idx nm (jGetD (Json.obj fields) "parameters" (Json.obj [])) with
        | ok v =>
          simp only [hrun] at heq
          by_cases hb : cnt + 1 ≥ cfg.maxToolCalls
          · rw [if_pos hb] at heq
            simp only [Prod.mk.injEq, Except.ok.injEq] at heq
            obtain ⟨⟨h1, h2, h3⟩, h4⟩ := heq
            subst h2
            exact ⟨Nat.le_succ cnt, fun _ _ => Nat.lt_succ_self cnt⟩
          · rw [if_neg hb] at heq
            have ih := dispatchCalls_progress cfg beh rest (cnt + 1) false _ _ res cnt2 af2 s2 hrest heq
            exact ⟨Nat.le_of_succ_le ih.1, fun _ _ => ih.1⟩
        | error e =>
          simp only [hrun] at heq
          by_cases hb : cnt + 1 ≥ cfg.maxToolCalls
          · rw [if_pos hb] at heq
            simp only [Prod.mk.injEq, Except.ok.injEq] at heq
            obtain ⟨⟨h1, h2, h3⟩, h4⟩ := heq
            subst h2; subst h3
            exact ⟨Nat.le_succ cnt, fun ha hb2 => absurd (ha ▸ hb2) (by simp)⟩
          · rw [if_neg hb] at heq
            have ih := dispatchCalls_progress cfg beh rest (cnt + 1) af _ _ res cnt2 af2 s2 hrest heq
            exact ⟨Nat.le_of_succ_le ih.1, fun _ _ => ih.1⟩

theorem recordUsageOne_shape (tool_calls : List Json) (i : Nat) (result : Json) (st : AState) :
    ∃ h, recordUsageOne tool_calls i result st = { st with toolUsageHistory := h } := by
  unfold recordUsageOne
  dsimp only
  split
  · split
    · rename_i hatt
      repeat' split at hatt
      all_goals first
        | (injection hatt with h2; exact ⟨_, h2.symm⟩)
        | (cases hatt)
        | (exact ⟨_, rfl⟩)
      all_goals exact ⟨_, rfl⟩
    · exact ⟨st.toolUsageHistory, rfl⟩
  · exact ⟨st.toolUsageHistory, rfl⟩

theorem recordUsage_foldl_shape (tool_calls : List Json) :
    ∀ (ps : List (Nat × Json)) (st : AState),
      ∃ h, ps.foldl (fun st2 p => recordUsageOne tool_calls p.1 p.2 st2) st =
        { st with toolUsageHistory := h }
  | [], st => ⟨st.toolUsageHistory, rfl⟩
  | p :: rest, st => by
    obtain ⟨h1, hone⟩ := recordUsageOne_shape tool_calls p.1 p.2 st
    obtain ⟨h2, hrec⟩ := recordUsage_foldl_shape tool_calls rest { st with toolUsageHistory := h1 }
    exact ⟨h2, by simp only [List.foldl, hone, hrec]⟩

theorem recordUsage_shape (tool_calls results : List Json) (st : AState) :
    ∃ h, recordUsage tool_calls results st = { st with toolUsageHistory := h } :=
  recordUsage_foldl_shape tool_calls results.enum st

theorem iterBodyCore_spec (cfg : Cfg) (beh : Beh) (loads : List Char → Option Json)
    (hgood : GoodBeh cfg beh loads) (tcc : Nat) (st : AState) (s : SState)
    (out : IterOut) (s2 : SState) (heq : iterBodyCore cfg beh loads tcc st s = (out, s2)) :
    (∃ st2, out = IterOut.ret st2 ∧ Pres st st2 ∧ (st2.status = "success" ∨ st2.status = "error")) ∨
    (∃ st2, out = IterOut.brk st2 ∧ Pres st st2 ∧ st2.status = "success") ∨
    (∃ st2 tcc2, out = IterOut.cont st2 tcc2 ∧ Pres st st2 ∧ tcc < tcc2 ∧ st2.status = st.status) := by
  unfold iterBodyCore at heq
  dsimp only at heq
  split at heq
  · simp only [Prod.mk.injEq] at heq
    obtain ⟨rfl, rfl⟩ := heq
    exact Or.inl ⟨_, rfl, ⟨rfl, rfl, rfl, rfl⟩, Or.inr rfl⟩
  · rename_i resp sB hgwt
    split at heq
    · split at heq
      · simp only [Prod.mk.injEq] at heq
        obtain ⟨rfl, rfl⟩ := heq
        exact Or.inl ⟨_, rfl, ⟨rfl, rfl, rfl, rfl⟩, Or.inr rfl⟩
      · split at heq
        · simp only [Prod.mk.injEq] at heq
          obtain ⟨rfl, rfl⟩ := heq
          exact Or.inl ⟨_, rfl, ⟨rfl, rfl, rfl, rfl⟩, Or.inl rfl⟩
        · simp only [Prod.mk.injEq] at heq
          obtain ⟨rfl, rfl⟩ := heq
          exact Or.inl ⟨_, rfl, ⟨rfl, rfl, rfl, rfl⟩, Or.inr rfl⟩
    · rename_i resp2 sC hgwt2
      have hdict : ∀ c ∈ parse_tool_calls loads resp2, goodCall c = true := by
        apply hgood.1 _ _ resp2
        have h1 : (callGWT beh resp sB).1 = Except.ok resp2 := by rw [hgwt2]
        simpa [callGWT] using h1
      split at heq
      · simp only [Prod.mk.injEq] at heq
        obtain ⟨rfl, rfl⟩ := heq
        exact Or.inr (Or.inl ⟨_, rfl, ⟨rfl, rfl, rfl, rfl⟩, rfl⟩)
      · split at heq
        · rename_i e sD hdisp
          obtain ⟨res, cnt2, af2, sE, hok⟩ :=
            dispatchCalls_no_raise cfg beh (parse_tool_calls loads resp2) tcc true [] sC hdict
          rw [hok] at hdisp
          simp at hdisp
        · rename_i tool_results tcc2 allFailed sD hdisp
          have hprog := dispatchCalls_progress cfg beh (parse_tool_calls loads resp2)
            tcc true [] sC tool_results tcc2 allFailed sD hdict hdisp
          obtain ⟨htuh, hru⟩ := recordUsage_shape (parse_tool_calls loads resp2) tool_results
            { st with toolCalls := st.toolCalls ++
                [{ calls := parse_tool_calls loads resp2, results := tool_results }] }
          rw [hru] at heq
          split at heq
          · rename_i hAF
            split at heq
            · rename_i e sE hrend
              simp only [callRender, Prod.mk.injEq] at hrend
              obtain ⟨v, hv⟩ := hgood.2 sD.idx "rag_answer" _
              rw [hv] at hrend
              simp at hrend
            · split at heq
              · simp only [Prod.mk.injEq] at heq
                obtain ⟨rfl, rfl⟩ := heq
                exact Or.inl ⟨_, rfl, ⟨rfl, rfl, rfl, rfl⟩, Or.inl rfl⟩
              · simp only [Prod.mk.injEq] at heq
                obtain ⟨rfl, rfl⟩ := heq
                exact Or.inl ⟨_, rfl, ⟨rfl, rfl, rfl, rfl⟩, Or.inr rfl⟩
          · rename_i hAF
            have haf : allFailed = false := by
              cases allFailed
              · rfl
              · exact absurd rfl hAF
            have hlt : tcc < tcc2 := hprog.2 rfl haf
            split at heq
            · split at heq
              · simp only [Prod.mk.injEq] at heq
                obtain ⟨rfl, rfl⟩ := heq
                exact Or.inr (Or.inr ⟨_, tcc2, rfl, ⟨rfl, rfl, rfl, rfl⟩, hlt, rfl⟩)
              · split at heq
                · simp only [Prod.mk.injEq] at heq
                  obtain ⟨rfl, rfl⟩ := heq
                  exact Or.inr (Or.inl ⟨_, rfl, ⟨rfl, rfl, rfl, rfl⟩, rfl⟩)
                · simp only [Prod.mk.injEq] at heq
                  obtain ⟨rfl, rfl⟩ := heq
                  exact Or.inr (Or.inr ⟨_, tcc2, rfl, ⟨rfl, rfl, rfl, rfl⟩, hlt, rfl⟩)
            · simp only [Prod.mk.injEq] at heq
              obtain ⟨rfl, rfl⟩ := heq
              exact Or.inr (Or.inr ⟨_, tcc2, rfl, ⟨rfl, rfl, rfl, rfl⟩, hlt, rfl⟩)

theorem Pres_trans {st st2 st3 : AState} (h1 : Pres st st2) (h2 : Pres st2 st3) : Pres st st3 :=
  ⟨h2.1.trans h1.1, h2.2.1.trans h1.2.1, h2.2.2.1.trans h1.2.2.1, h2.2.2.2.trans h1.2.2.2⟩

theorem iterBody_spec (cfg : Cfg) (beh : Beh) (loads : List Char → Option Json)
    (hgood : GoodBeh cfg beh loads) (tcc : Nat) (st : AState) (s : SState)
    (out : IterOut) (s2 : SState) (heq : iterBody cfg beh loads tcc st s = (out, s2)) :
    (∃ st2, out = IterOut.ret st2 ∧ Pres st st2 ∧ (st2.status = "success" ∨ st2.status = "error")) ∨
    (∃ st2, out = IterOut.brk st2 ∧ Pres st st2 ∧ st2.status = "success") ∨
    (∃ st2 tcc2, out = IterOut.cont st2 tcc2 ∧ Pres st st2 ∧ tcc < tcc2 ∧ st2.status = st.status) := by
  unfold iterBody at heq
  exact iterBodyCore_spec cfg beh loads hgood tcc st _ out s2 heq

theorem loopAux_spec (cfg : Cfg) (beh : Beh) (loads : List Char → Option Json)
    (hgood : GoodBeh cfg beh loads) :
    ∀ (fuel tcc : Nat) (st : AState) (s : SState),
      cfg.maxToolCalls - tcc < fuel →
      ∃ r s2, loopAux cfg beh loads fuel tcc st s = (Except.ok r, s2) ∧
        ((∃ st2, r = LoopOut.ret st2 ∧ Pres st st2 ∧ (st2.status = "success" ∨ st2.status = "error")) ∨
         (∃ st2, r = LoopOut.post st2 ∧ Pres st st2 ∧ (st2.status = "success" ∨ st2.status = st.status)))
  | 0, tcc, st, s, hfuel => absurd hfuel (by omega)
  | fuel + 1, tcc, st, s, hfuel => by
    by_cases htc : tcc < cfg.maxToolCalls
    · rcases hib : iterBody cfg beh loads tcc st s with ⟨ib, sB⟩
      have hspec := iterBody_spec cfg beh loads hgood tcc st s ib sB hib
      simp only [loopAux]
      rw [if_pos htc, hib]
      rcases hspec with ⟨st2, rfl, hp, hst⟩ | ⟨st2, rfl, hp, hst⟩ | ⟨st2, tcc2, rfl, hp, hlt, hst⟩
      · exact ⟨LoopOut.ret st2, sB, rfl, Or.inl ⟨st2, rfl, hp, hst⟩⟩
      · exact ⟨LoopOut.post st2, sB, rfl, Or.inr ⟨st2, rfl, hp, Or.inl hst⟩⟩
      · obtain ⟨r, s3, hrec, hclass⟩ := loopAux_spec cfg beh loads hgood fuel tcc2 st2 sB (by omega)
        refine ⟨r, s3, hrec, ?_⟩
        rcases hclass with ⟨st3, rfl, hp2, hst2⟩ | ⟨st3, rfl, hp2, hst2⟩
        · exact Or.inl ⟨st3, rfl, Pres_trans hp hp2, hst2⟩
        · refine Or.inr ⟨st3, rfl, Pres_trans hp hp2, ?_⟩
          rcases hst2 with h | h
          · exact Or.inl h
          · exact Or.inr (h.trans hst)
    · simp only [loopAux]
      rw [if_neg htc]
      exact ⟨LoopOut.post st, s, rfl, Or.inr ⟨st, rfl, ⟨rfl, rfl, rfl, rfl⟩, Or.inr rfl⟩⟩

theorem agentLoopGo_spec (cfg : Cfg) (beh : Beh) (loads : List Char → Option Json)
    (hgood : GoodBeh cfg beh loads) (st : AState) (s : SState) (r : Except MErr AState)
    (s2 : SState) (heq : agentLoopGo cfg beh loads st s = (r, s2)) :
    ∃ st2, r = Except.ok st2 ∧
      st2.iterations = st.iterations ∧
      st2.maxIterations = st.maxIterations ∧
      st2.errors.isSome = st.errors.isSome ∧
      st2.retries = st.retries ∧
      (st2.status = "success" ∨ st2.status = "error" ∨
        (st2.status = st.status ∧ st.status ≠ "processing")) := by
  obtain ⟨rl, s3, hloop, hclass⟩ := loopAux_spec cfg beh loads hgood (cfg.maxToolCalls + 1) 0 st s
    (by omega)
  unfold agentLoopGo at heq
  split at heq
  · rename_i e sE hE
    rw [hloop] at hE
    simp at hE
  · rename_i stR sR hR
    rw [hloop] at hR
    simp only [Prod.mk.injEq, Except.ok.injEq] at hR
    obtain ⟨h1, h2⟩ := hR
    rcases hclass with ⟨st2, hrl, hp, hst⟩ | ⟨st2, hrl, hp, hst⟩
    · rw [hrl] at h1
      injection h1 with h1
      subst h1
      simp only [Prod.mk.injEq] at heq
      obtain ⟨rfl, rfl⟩ := heq
      refine ⟨st2, rfl, hp.1, hp.2.1, hp.2.2.1, hp.2.2.2, ?_⟩
      rcases hst with h | h
      · exact Or.inl h
      · exact Or.inr (Or.inl h)
    · rw [hrl] at h1
      cases h1
  · rename_i e stX sX hX
    rw [hloop] at hX
    simp only [Prod.mk.injEq, Except.ok.injEq] at hX
    obtain ⟨h1, h2⟩ := hX
    rcases hclass with ⟨st2, hrl, hp, hst⟩ | ⟨st2, hrl, hp, hst⟩
    · rw [hrl] at h1; cases h1
    · rw [hrl] at h1; cases h1
  · rename_i stP sP hP
    rw [hloop] at hP
    simp only [Prod.mk.injEq, Except.ok.injEq] at hP
    obtain ⟨h1, h2⟩ := hP
    rcases hclass with ⟨st2, hrl, hp, hst⟩ | ⟨st2, hrl, hp, hst⟩
    · rw [hrl] at h1; cases h1
    · rw [hrl] at h1
      injection h1 with h1
      subst h1
      subst h2
      split at heq
      · rename_i hsp
        split at heq
        · rename_i e sE hrend
          simp only [callRender, Prod.mk.injEq] at hrend
          obtain ⟨v, hv⟩ := hgood.2 s3.idx "rag_answer" _
          rw [hv] at hrend
          simp at hrend
        · split at heq
          · simp only [Prod.mk.injEq] at heq
            obtain ⟨rfl, rfl⟩ := heq
            exact ⟨_, rfl, hp.1, hp.2.1, hp.2.2.1, hp.2.2.2, Or.inl rfl⟩
          · simp only [Prod.mk.injEq] at heq
            obtain ⟨rfl, rfl⟩ := heq
            exact ⟨_, rfl, hp.1, hp.2.1, hp.2.2.1, hp.2.2.2, Or.inr (Or.inl rfl)⟩
      · rename_i hsp
        simp only [Prod.mk.injEq] at heq
        obtain ⟨rfl, rfl⟩ := heq
        refine ⟨st2, rfl, hp.1, hp.2.1, hp.2.2.1, hp.2.2.2, ?_⟩
        rcases hst with h | h
        · exact Or.inl h
        · refine Or.inr (Or.inr ⟨h, ?_⟩)
          intro hps
          exact hsp (h.trans hps)

theorem agentLoop_spec (cfg : Cfg) (beh : Beh) (loads : List Char → Option Json)
    (hgood : GoodBeh cfg beh loads) (st : AState) (s : SState) (r : Except MErr AState)
    (s2 : SState) (heq : agentLoop cfg beh loads st s = (r, s2)) :
    ∃ st2, r = Except.ok st2 ∧
      st2.iterations = (if st.iterations = none then some 0 else st.iterations) ∧
      st2.maxIterations = st.maxIterations ∧
      st2.errors.isSome = st.errors.isSome ∧
      st2.retries = st.retries ∧
      (st2.status = "success" ∨ st2.status = "error" ∨
        (st2.status = st.status ∧ st.status ≠ "processing")) := by
  unfold agentLoop at heq
  by_cases hit : st.iterations = none
  · rw [if_pos hit] at heq
    obtain ⟨st2, hr, h1, h2, h3, h4, h5⟩ := agentLoopGo_spec cfg beh loads hgood _ s r s2 heq
    rw [if_pos hit]
    exact ⟨st2, hr, h1, h2, h3, h4, h5⟩
  · rw [if_neg hit] at heq
    obtain ⟨st2, hr, h1, h2, h3, h4, h5⟩ := agentLoopGo_spec cfg beh loads hgood st s r s2 heq
    rw [if_neg hit]
    exact ⟨st2, hr, h1, h2, h3, h4, h5⟩

theorem analyzeQueryS_spec (cfg : Cfg) (beh : Beh) (st : AState) (s : SState)
    (r : Except MErr AState) (s2 : SState) (heq : analyzeQueryS cfg beh st s = (r, s2)) :
    (∃ e, r = Except.error (MErr.py e)) ∨
    (∃ st1, r = Except.ok st1 ∧ st1.iterations = st.iterations ∧
      st1.maxIterations = st.maxIterations ∧ st1.errors.isSome = st.errors.isSome ∧
      st1.retries = st.retries ∧ st1.status = st.status ∧ st1.answer = st.answer) := by
  unfold analyzeQueryS at heq
  split at heq
  · simp only [Prod.mk.injEq] at heq
    obtain ⟨rfl, rfl⟩ := heq
    exact Or.inl ⟨_, rfl⟩
  · split at heq
    · simp only [Prod.mk.injEq] at heq
      obtain ⟨rfl, rfl⟩ := heq
      exact Or.inl ⟨_, rfl⟩
    · simp only [Prod.mk.injEq] at heq
      obtain ⟨rfl, rfl⟩ := heq
      exact Or.inr ⟨_, rfl, rfl, rfl, rfl, rfl, rfl, rfl⟩

theorem processSubsLoop_spec (cfg : Cfg) (beh : Beh) (loads : List Char → Option Json)
    (hgood : GoodBeh cfg beh loads) :
    ∀ (subs : List String) (st : AState) (s : SState) (r : Except MErr AState) (s2 : SState),
      processSubsLoop cfg beh loads subs st s = (r, s2) →
      ∃ st1, r = Except.ok st1 ∧ st1.iterations = st.iterations ∧
        st1.maxIterations = st.maxIterations ∧ st1.errors.isSome = st.errors.isSome ∧
        st1.retries = st.retries ∧ st1.status = st.status ∧ st1.answer = st.answer
  | [], st, s, r, s2, heq => by
    simp only [processSubsLoop, Prod.mk.injEq] at heq
    obtain ⟨rfl, rfl⟩ := heq
    exact ⟨st, rfl, rfl, rfl, rfl, rfl, rfl, rfl⟩
  | q :: rest, st, s, r, s2, heq => by
    simp only [processSubsLoop] at heq
    rcases hAL : agentLoop cfg beh loads (subState st q) s with ⟨rA, sA⟩
    obtain ⟨stA, hrA, _⟩ := agentLoop_spec cfg beh loads hgood (subState st q) s rA sA hAL
    rw [hrA] at hAL
    rw [hAL] at heq
    dsimp only at heq
    obtain ⟨st1, hr, h1, h2, h3, h4, h5, h6⟩ :=
      processSubsLoop_spec cfg beh loads hgood rest _ sA r s2 heq
    exact ⟨st1, hr, h1, h2, h3, h4, h5, h6⟩

theorem processQuery_spec (cfg : Cfg) (beh : Beh) (loads : List Char → Option Json)
    (hgood : GoodBeh cfg beh loads) (st : AState) (s : SState)
    (r : Except MErr AState) (s2 : SState) (heq : processQuery cfg beh loads st s = (r, s2)) :
    (∃ e, r = Except.error (MErr.py e)) ∨
    (∃ st1, r = Except.ok st1 ∧ st1.iterations = st.iterations ∧
      st1.maxIterations = st.maxIterations ∧ st1.errors.isSome = st.errors.isSome ∧
      st1.retries = st.retries ∧ (st1.status = st.status ∨ st1.status = "success")) := by
  unfold processQuery at heq
  split at heq
  · dsimp only at heq
    rcases hPS : processSubsLoop cfg beh loads (st.queryAnalysis.subQuestions.getD [])
        { st with subQuestionsResults := some [] } s with ⟨rP, sP⟩
    obtain ⟨stP, hrP, h1, h2, h3, h4, h5, h6⟩ :=
      processSubsLoop_spec cfg beh loads hgood _ _ s rP sP hPS
    rw [hrP] at hPS
    rw [hPS] at heq
    dsimp only at heq
    split at heq
    · simp only [Prod.mk.injEq] at heq
      obtain ⟨rfl, rfl⟩ := heq
      exact Or.inr ⟨stP, rfl, h1, h2, h3, h4, Or.inl h5⟩
    · split at heq
      · simp only [Prod.mk.injEq] at heq
        obtain ⟨rfl, rfl⟩ := heq
        exact Or.inl ⟨_, rfl⟩
      · split at heq
        · simp only [Prod.mk.injEq] at heq
          obtain ⟨rfl, rfl⟩ := heq
          exact Or.inl ⟨_, rfl⟩
        · simp only [Prod.mk.injEq] at heq
          obtain ⟨rfl, rfl⟩ := heq
          exact Or.inr ⟨_, rfl, h1, h2, h3, h4, Or.inr rfl⟩
  · simp only [Prod.mk.injEq] at heq
    obtain ⟨rfl, rfl⟩ := heq
    exact Or.inr ⟨st, rfl, rfl, rfl, rfl, rfl, Or.inl rfl⟩

theorem evalOuterCatch_spec (st : AState) (e : PyErr) (s : SState)
    (r : Except MErr AState) (s2 : SState) (heq : evalOuterCatch st e s = (r, s2))
    (l : List String) (hl : st.errors = some l) :
    ∃ st1, r = Except.ok st1 ∧ st1.iterations = st.iterations ∧
      st1.maxIterations = st.maxIterations ∧ st1.errors.isSome = true ∧
      st1.retries = st.retries ∧ st1.status = st.status := by
  unfold evalOuterCatch appendError at heq
  simp only [hl] at heq
  simp only [Prod.mk.injEq] at heq
  obtain ⟨rfl, rfl⟩ := heq
  refine ⟨_, rfl, ?_, ?_, ?_, ?_, ?_⟩
  · split <;> rfl
  · split <;> rfl
  · split <;> rfl
  · split <;> rfl
  · split <;> rfl

theorem evaluateAnswer_spec (cfg : Cfg) (beh : Beh) (loads : List Char → Option Json)
    (st : AState) (s : SState) (herr : st.errors.isSome = true)
    (r : Except MErr AState) (s2 : SState)
    (heq : evaluateAnswer cfg beh loads st s = (r, s2)) :
    ∃ st1, r = Except.ok st1 ∧ st1.iterations = st.iterations ∧
      st1.maxIterations = st.maxIterations ∧ st1.errors.isSome = true ∧
      st1.retries = st.retries ∧ (st1.status = st.status ∨ st1.status = "error") := by
  obtain ⟨l, hl⟩ := Option.isSome_iff_exists.mp herr
  unfold evaluateAnswer at heq
  split at heq
  · simp only [Prod.mk.injEq] at heq
    obtain ⟨rfl, rfl⟩ := heq
    exact ⟨_, rfl, rfl, rfl, herr, rfl, Or.inr rfl⟩
  · split at heq
    · obtain ⟨st1, hr, h1, h2, h3, h4, h5⟩ := evalOuterCatch_spec st _ s r s2 heq l hl
      exact ⟨st1, hr, h1, h2, h3, h4, Or.inl h5⟩
    · split at heq
      · simp only [Prod.mk.injEq] at heq
        obtain ⟨rfl, rfl⟩ := heq
        exact ⟨_, rfl, rfl, rfl, herr, rfl, Or.inl rfl⟩
      · split at heq
        · simp only [Prod.mk.injEq] at heq
          obtain ⟨rfl, rfl⟩ := heq
          exact ⟨_, rfl, rfl, rfl, herr, rfl, Or.inl rfl⟩
        · split at heq
          · simp only [Prod.mk.injEq] at heq
            obtain ⟨rfl, rfl⟩ := heq
            exact ⟨_, rfl, rfl, rfl, herr, rfl, Or.inl rfl⟩
          · obtain ⟨st1, hr, h1, h2, h3, h4, h5⟩ :=
              evalOuterCatch_spec _ _ _ r s2 heq l hl
            exact ⟨st1, hr, h1, h2, h3, h4, Or.inl h5⟩

theorem optOuterCatch_spec (st : AState) (e : PyErr) (s : SState)
    (r : Except MErr AState) (s2 : SState) (heq : optOuterCatch st e s = (r, s2))
    (l : List String) (hl : st.errors = some l) :
    ∃ st1, r = Except.ok st1 ∧ st1.iterations = st.iterations ∧
      st1.maxIterations = st.maxIterations ∧ st1.errors.isSome = true ∧
      st1.retries = st.retries ∧ st1.status = st.status := by
  unfold optOuterCatch appendError at heq
  simp only [hl] at heq
  simp only [Prod.mk.injEq] at heq
  obtain ⟨rfl, rfl⟩ := heq
  refine ⟨_, rfl, ?_, ?_, ?_, ?_, ?_⟩
  · split <;> rfl
  · split <;> rfl
  · split <;> rfl
  · split <;> rfl
  · split <;> rfl

theorem optActionCatch_spec (st : AState) (e : PyErr) (s : SState)
    (r : Except MErr AState) (s2 : SState) (heq : optActionCatch st e s = (r, s2))
    (l : List String) (hl : st.errors = some l) :
    ∃ st1, r = Except.ok st1 ∧ st1.iterations = st.iterations ∧
      st1.maxIterations = st.maxIterations ∧ st1.errors.isSome = true ∧
      st1.retries = st.retries ∧ st1.status = st.status := by
  unfold optActionCatch appendError at heq
  simp only [hl] at heq
  simp only [Prod.mk.injEq] at heq
  obtain ⟨rfl, rfl⟩ := heq
  refine ⟨_, rfl, ?_, ?_, ?_, ?_, ?_⟩
  · split <;> rfl
  · split <;> rfl
  · split <;> rfl
  · split <;> rfl
  · split <;> rfl

theorem optimizeAnswer_spec (cfg : Cfg) (beh : Beh) (loads : List Char → Option Json)
    (hgood : GoodBeh cfg beh loads) (st : AState) (s : SState)
    (herr : st.errors.isSome = true) (r : Except MErr AState) (s2 : SState)
    (heq : optimizeAnswer cfg beh loads st s = (r, s2)) :
    ∃ st1, r = Except.ok st1 ∧ st1.iterations = st.iterations ∧
      st1.maxIterations = st.maxIterations ∧ st1.errors.isSome = true ∧
      st1.retries = st.retries ∧ (st1.status = st.status ∨ st1.status = "success") := by
  obtain ⟨l, hl⟩ := Option.isSome_iff_exists.mp herr
  unfold optimizeAnswer at heq
  split at heq
  · simp only [Prod.mk.injEq] at heq
    obtain ⟨rfl, rfl⟩ := heq
    exact ⟨_, rfl, rfl, rfl, herr, rfl, Or.inl rfl⟩
  · split at heq
    · obtain ⟨st1, hr, h1, h2, h3, h4, h5⟩ := optOuterCatch_spec st _ s r s2 heq l hl
      exact ⟨st1, hr, h1, h2, h3, h4, Or.inl h5⟩
    · split at heq
      try dsimp only at heq
      split at heq
      · simp only [Prod.mk.injEq] at heq
        obtain ⟨rfl, rfl⟩ := heq
        exact ⟨_, rfl, rfl, rfl, herr, rfl, Or.inl rfl⟩
      · try dsimp only at heq
        split at heq
        · split at heq
          · split at heq
            · simp only [Prod.mk.injEq] at heq
              obtain ⟨rfl, rfl⟩ := heq
              exact ⟨_, rfl, rfl, rfl, herr, rfl, Or.inl rfl⟩
            · simp only [Prod.mk.injEq] at heq
              obtain ⟨rfl, rfl⟩ := heq
              exact ⟨_, rfl, rfl, rfl, herr, rfl, Or.inl rfl⟩
          · split at heq
            · split at heq
              · rename_i e2 sX han
                obtain ⟨st1, hr, h1, h2, h3, h4, h5⟩ := optActionCatch_spec _ _ _ r s2 heq l hl
                exact ⟨st1, hr, h1, h2, h3, h4, Or.inl h5⟩
              · rename_i sX han
                rcases analyzeQueryS_spec cfg beh _ _ _ _ han with ⟨e, hc⟩ | ⟨stc, hc, hrest⟩
                · cases hc
                · cases hc
              · rename_i st2 sX han
                rcases analyzeQueryS_spec cfg beh _ _ _ _ han with ⟨e, hc⟩ |
                  ⟨stc, hc, hc1, hc2, hc3, hc4, hc5, hc6⟩
                · cases hc
                · injection hc with hc
                  subst hc
                  split at heq
                  · rename_i e2 sY hpq
                    obtain ⟨lc, hlc⟩ := Option.isSome_iff_exists.mp (hc3.trans herr)
                    obtain ⟨st1, hr, h1, h2, h3, h4, h5⟩ :=
                      optActionCatch_spec _ _ _ r s2 heq lc hlc
                    exact ⟨st1, hr, h1.trans hc1, h2.trans hc2, h3, h4.trans hc4,
                      Or.inl (h5.trans hc5)⟩
                  · rename_i sY hpq
                    rcases processQuery_spec cfg beh loads hgood _ _ _ _ hpq with ⟨e, hc⟩ |
                      ⟨stp, hc, hrest⟩
                    · cases hc
                    · cases hc
                  · rename_i st3 sY hpq
                    rcases processQuery_spec cfg beh loads hgood _ _ _ _ hpq with ⟨e, hc⟩ |
                      ⟨stp, hc, hp1, hp2, hp3, hp4, hp5⟩
                    · cases hc
                    · injection hc with hc
                      subst hc
                      simp only [Prod.mk.injEq] at heq
                      obtain ⟨rfl, rfl⟩ := heq
                      refine ⟨st3, rfl, hp1.trans hc1, hp2.trans hc2, hp3.trans (hc3.trans herr),
                        hp4.trans hc4, ?_⟩
                      rcases hp5 with h | h
                      · exact Or.inl (h.trans hc5)
                      · exact Or.inr h
            · simp only [Prod.mk.injEq] at heq
              obtain ⟨rfl, rfl⟩ := heq
              exact ⟨_, rfl, rfl, rfl, herr, rfl, Or.inl rfl⟩
        · obtain ⟨st1, hr, h1, h2, h3, h4, h5⟩ := optActionCatch_spec _ _ _ r s2 heq l hl
          exact ⟨st1, hr, h1, h2, h3, h4, Or.inl h5⟩

theorem evalIterCatch_spec (st : AState) (msg : String) (r : Except PyErr AState)
    (heq : evalIterCatch st msg = r) (i : Nat) (hi : st.iterations = some i)
    (l : List String) (hl : st.errors = some l) :
    ∃ st1, r = Except.ok st1 ∧ st1.iterations = some (i + 1) ∧
      st1.maxIterations = st.maxIterations ∧ st1.errors.isSome = true ∧
      st1.retries = st.retries ∧ st1.status = st.status := by
  unfold evalIterCatch appendError at heq
  simp only [hi, hl] at heq
  exact ⟨_, heq.symm, rfl, rfl, rfl, rfl, rfl⟩

theorem incIterations_spec (st : AState) (r : Except PyErr AState)
    (heq : incIterations st = r) (i : Nat) (hi : st.iterations = some i) :
    ∃ st1, r = Except.ok st1 ∧ st1.iterations = some (i + 1) ∧
      st1.maxIterations = st.maxIterations ∧ st1.errors = st.errors ∧
      st1.retries = st.retries ∧ st1.status = st.status := by
  unfold incIterations at heq
  simp only [hi] at heq
  exact ⟨_, heq.symm, rfl, rfl, rfl, rfl, rfl⟩

theorem evalLoopAux_spec (cfg : Cfg) (beh : Beh) (loads : List Char → Option Json)
    (hgood : GoodBeh cfg beh loads) :
    ∀ (fuel : Nat) (st : AState) (s : SState) (r : Except MErr AState) (s2 : SState),
      evalLoopAux cfg beh loads fuel st s = (r, s2) →
      ∀ i m, st.errors.isSome = true → st.iterations = some i → st.maxIterations = some m →
      (st.status = "success" ∨ st.status = "error") →
      m - i < fuel →
      ∃ st1, r = Except.ok st1 ∧ st1.errors.isSome = true ∧ st1.iterations.isSome = true ∧
        st1.maxIterations = some m ∧ st1.retries = st.retries ∧
        (st1.status = "success" ∨ st1.status = "error")
  | 0, st, s, r, s2, heq, i, m, herr, hi, hm, hst, hfuel => absurd hfuel (by omega)
  | fuel + 1, st, s, r, s2, heq, i, m, herr, hi, hm, hst, hfuel => by
    simp only [evalLoopAux] at heq
    simp only [hi, hm] at heq
    split at heq
    · rename_i hguard
      split at heq
      · rename_i e sE hev
        obtain ⟨st1, hok, hrest⟩ := evaluateAnswer_spec cfg beh loads st s herr _ _ hev
        cases hok
      · rename_i st1 sE hev
        obtain ⟨st1', hok, h1, h2, h3, h4, h5⟩ := evaluateAnswer_spec cfg beh loads st s herr _ _ hev
        injection hok with hok
        subst hok
        obtain ⟨l1, hl1⟩ := Option.isSome_iff_exists.mp h3
        split at heq
        · rename_i hserr
          split at heq
          · rename_i e2 hic
            obtain ⟨stx, hx, hxrest⟩ := evalIterCatch_spec st1 _ _ hic i (h1.trans hi) l1 hl1
            cases hx
          · rename_i st2 hic
            obtain ⟨stx, hx, hx1, hx2, hx3, hx4, hx5⟩ :=
              evalIterCatch_spec st1 _ _ hic i (h1.trans hi) l1 hl1
            injection hx with hx
            subst hx
            obtain ⟨stf, hrf, f1, f2, f3, f4, f5⟩ :=
              evalLoopAux_spec cfg beh loads hgood fuel st2 sE r s2 heq (i + 1) m hx3 hx1
                (hx2.trans (h2.trans hm)) (Or.inr (hx5.trans hserr)) (by omega)
            exact ⟨stf, hrf, f1, f2, f3, f4.trans (hx4.trans h4), f5⟩
        · rename_i hsne
          have hs1succ : st1.status = "success" := by
            rcases h5 with h | h
            · rcases hst with h' | h'
              · exact h.trans h'
              · exact absurd (h.trans h') hsne
            · exact absurd h hsne
          split at heq
          · rename_i hni
            split at heq
            · rename_i e2 sO hopt
              obtain ⟨sto, hok2, horest⟩ :=
                optimizeAnswer_spec cfg beh loads hgood st1 sE h3 _ _ hopt
              cases hok2
            · rename_i st2 sO hopt
              obtain ⟨sto, hok2, g1, g2, g3, g4, g5⟩ :=
                optimizeAnswer_spec cfg beh loads hgood st1 sE h3 _ _ hopt
              injection hok2 with hok2
              subst hok2
              obtain ⟨l2, hl2⟩ := Option.isSome_iff_exists.mp g3
              have hs2succ : st2.status = "success" := by
                rcases g5 with h | h
                · exact h.trans hs1succ
                · exact h
              split at heq
              · rename_i hserr2
                exact absurd (hs2succ.symm.trans hserr2) (by decide)
              · rename_i hsne2
                split at heq
                · rename_i e3 sA hal
                  obtain ⟨sta, hok3, harest⟩ := agentLoop_spec cfg beh loads hgood st2 sO _ _ hal
                  cases hok3
                · rename_i st3 sA hal
                  obtain ⟨sta, hok3, a1, a2, a3, a4, a5⟩ :=
                    agentLoop_spec cfg beh loads hgood st2 sO _ _ hal
                  injection hok3 with hok3
                  subst hok3
                  have hit2 : st2.iterations = some i := g1.trans (h1.trans hi)
                  have hit3 : st3.iterations = some i := by
                    rw [a1, hit2]
                    simp
                  have hs3 : st3.status = "success" ∨ st3.status = "error" := by
                    rcases a5 with h | h
                    · exact Or.inl h
                    · rcases h with h | h
                      · exact Or.inr h
                      · exact Or.inl (h.1.trans hs2succ)
                  split at heq
                  · rename_i hserr3
                    obtain ⟨l3, hl3⟩ := Option.isSome_iff_exists.mp (a3.trans g3)
                    split at heq
                    · rename_i e4 hic
                      obtain ⟨stx, hx, hxrest⟩ := evalIterCatch_spec st3 _ _ hic i hit3 l3 hl3
                      cases hx
                    · rename_i st4 hic
                      obtain ⟨stx, hx, hx1, hx2, hx3, hx4, hx5⟩ :=
                        evalIterCatch_spec st3 _ _ hic i hit3 l3 hl3
                      injection hx with hx
                      subst hx
                      obtain ⟨stf, hrf, f1, f2, f3, f4, f5⟩ :=
                        evalLoopAux_spec cfg beh loads hgood fuel st4 sA r s2 heq (i + 1) m hx3 hx1
                          (hx2.trans (a2.trans (g2.trans (h2.trans hm))))
                          (Or.inr (hx5.trans hserr3)) (by omega)
                      exact ⟨stf, hrf, f1, f2, f3,
                        f4.trans (hx4.trans (a4.trans (g4.trans h4))), f5⟩
                  · rename_i hsne3
                    split at heq
                    · rename_i e4 hinc
                      obtain ⟨stx, hx, hxrest⟩ := incIterations_spec st3 _ hinc i hit3
                      cases hx
                    · rename_i st4 hinc
                      obtain ⟨stx, hx, hx1, hx2, hx3, hx4, hx5⟩ :=
                        incIterations_spec st3 _ hinc i hit3
                      injection hx with hx
                      subst hx
                      have hs4 : st4.status = "success" ∨ st4.status = "error" := by
                        rw [hx5]
                        exact hs3
                      obtain ⟨stf, hrf, f1, f2, f3, f4, f5⟩ :=
                        evalLoopAux_spec cfg beh loads hgood fuel st4 sA r s2 heq (i + 1) m
                          (by rw [hx3]; exact a3.trans g3) hx1
                          (hx2.trans (a2.trans (g2.trans (h2.trans hm)))) hs4 (by omega)
                      exact ⟨stf, hrf, f1, f2, f3,
                        f4.trans (hx4.trans (a4.trans (g4.trans h4))), f5⟩
          · rename_i hni
            simp only [Prod.mk.injEq] at heq
            obtain ⟨rfl, rfl⟩ := heq
            refine ⟨st1, rfl, h3, ?_, h2.trans hm, h4, ?_⟩
            · rw [h1.trans hi]; rfl
            · rcases h5 with h | h
              · rw [h]; exact hst
              · exact Or.inr h
    · rename_i hguard
      simp only [Prod.mk.injEq] at heq
      obtain ⟨rfl, rfl⟩ := heq
      refine ⟨st, rfl, herr, ?_, hm, rfl, hst⟩
      rw [hi]; rfl

theorem attemptCore_spec (cfg : Cfg) (beh : Beh) (loads : List Char → Option Json)
    (hgood : GoodBeh cfg beh loads) (st : AState) (s : SState)
    (r : Except MErr AttemptOut) (s2 : SState) (heq : attemptCore cfg beh loads st s = (r, s2))
    (i m : Nat) (herr : st.errors.isSome = true) (hi : st.iterations = some i)
    (hm : st.maxIterations = some m) (hst : st.status = "processing") :
    (∃ st4, r = Except.ok (AttemptOut.done st4) ∧ st4.errors.isSome = true ∧
      st4.iterations.isSome = true ∧ st4.maxIterations.isSome = true ∧
      st4.retries = st.retries ∧ (st4.status = "success" ∨ st4.status = "error")) ∨
    (∃ stx e, r = Except.ok (AttemptOut.exc stx e) ∧ stx.errors.isSome = true ∧
      stx.iterations.isSome = true ∧ stx.maxIterations.isSome = true ∧
      stx.retries = st.retries) := by
  unfold attemptCore at heq
  split at heq
  · simp only [Prod.mk.injEq] at heq
    obtain ⟨rfl, rfl⟩ := heq
    exact Or.inr ⟨st, _, rfl, herr, by rw [hi]; rfl, by rw [hm]; rfl, rfl⟩
  · rename_i sX han
    rcases analyzeQueryS_spec cfg beh _ _ _ _ han with ⟨e, hc⟩ | ⟨stc, hc, hrest⟩
    · cases hc
    · cases hc
  · rename_i st1 sX han
    rcases analyzeQueryS_spec cfg beh _ _ _ _ han with ⟨e, hc⟩ |
      ⟨stc, hc, hc1, hc2, hc3, hc4, hc5, hc6⟩
    · cases hc
    · injection hc with hc
      subst hc
      split at heq
      · simp only [Prod.mk.injEq] at heq
        obtain ⟨rfl, rfl⟩ := heq
        exact Or.inr ⟨st1, _, rfl, hc3.trans herr, by rw [hc1.trans hi]; rfl,
          by rw [hc2.trans hm]; rfl, hc4⟩
      · rename_i hsne1
        split at heq
        · rename_i e2 sY hpq
          simp only [Prod.mk.injEq] at heq
          obtain ⟨rfl, rfl⟩ := heq
          exact Or.inr ⟨st1, _, rfl, hc3.trans herr, by rw [hc1.trans hi]; rfl,
            by rw [hc2.trans hm]; rfl, hc4⟩
        · rename_i sY hpq
          rcases processQuery_spec cfg beh loads hgood _ _ _ _ hpq with ⟨e, hc⟩ | ⟨stp, hc, hrest⟩
          · cases hc
          · cases hc
        · rename_i st2 sY hpq
          rcases processQuery_spec cfg beh loads hgood _ _ _ _ hpq with ⟨e, hc⟩ |
            ⟨stp, hc, hp1, hp2, hp3, hp4, hp5⟩
          · cases hc
          · injection hc with hc
            subst hc
            have hs2 : st2.status = "processing" ∨ st2.status = "success" := by
              rcases hp5 with h | h
              · exact Or.inl (h.trans (hc5.trans hst))
              · exact Or.inr h
            split at heq
            · rename_i hserr2
              rcases hs2 with h | h
              · exact absurd (h.symm.trans hserr2) (by decide)
              · exact absurd (h.symm.trans hserr2) (by decide)
            · rename_i hsne2
              split at heq
              · rename_i e3 sA hal
                obtain ⟨sta, hok3, harest⟩ := agentLoop_spec cfg beh loads hgood st2 sY _ _ hal
                cases hok3
              · rename_i sA hal
                obtain ⟨sta, hok3, harest⟩ := agentLoop_spec cfg beh loads hgood st2 sY _ _ hal
                cases hok3
              · rename_i st3 sA hal
                obtain ⟨sta, hok3, a1, a2, a3, a4, a5⟩ :=
                  agentLoop_spec cfg beh loads hgood st2 sY _ _ hal
                injection hok3 with hok3
                subst hok3
                have hit2 : st2.iterations = some i := hp1.trans (hc1.trans hi)
                have hit3 : st3.iterations = some i := by
                  rw [a1, hit2]
                  simp
                have hmax3 : st3.maxIterations = some m := a2.trans (hp2.trans (hc2.trans hm))
                have hs3 : st3.status = "success" ∨ st3.status = "error" := by
                  rcases a5 with h | h
                  · exact Or.inl h
                  · rcases h with h | h
                    · exact Or.inr h
                    · rcases hs2 with h2 | h2
                      · exact absurd h2 h.2
                      · exact Or.inl (h.1.trans h2)
                split at heq
                · rename_i hserr3
                  simp only [Prod.mk.injEq] at heq
                  obtain ⟨rfl, rfl⟩ := heq
                  exact Or.inr ⟨st3, _, rfl, a3.trans (hp3.trans (hc3.trans herr)),
                    by rw [hit3]; rfl, by rw [hmax3]; rfl, a4.trans (hp4.trans hc4)⟩
                · rename_i hsne3
                  rw [hmax3] at heq
                  simp only [Option.getD_some] at heq
                  split at heq
                  · rename_i e4 sE hEL
                    obtain ⟨stf, hrf, hfrest⟩ :=
                      evalLoopAux_spec cfg beh loads hgood (m + 1) st3 sA _ _ hEL i m
                        (a3.trans (hp3.trans (hc3.trans herr))) hit3 hmax3 hs3 (by omega)
                    cases hrf
                  · rename_i sE hEL
                    obtain ⟨stf, hrf, hfrest⟩ :=
                      evalLoopAux_spec cfg beh loads hgood (m + 1) st3 sA _ _ hEL i m
                        (a3.trans (hp3.trans (hc3.trans herr))) hit3 hmax3 hs3 (by omega)
                    cases hrf
                  · rename_i st4 sE hEL
                    obtain ⟨stf, hrf, f1, f2, f3, f4, f5⟩ :=
                      evalLoopAux_spec cfg beh loads hgood (m + 1) st3 sA _ _ hEL i m
                        (a3.trans (hp3.trans (hc3.trans herr))) hit3 hmax3 hs3 (by omega)
                    injection hrf with hrf
                    subst hrf
                    simp only [Prod.mk.injEq] at heq
                    obtain ⟨rfl, rfl⟩ := heq
                    exact Or.inl ⟨st4, rfl, f1, f2, by rw [f3]; rfl,
                      f4.trans (a4.trans (hp4.trans hc4)), f5⟩

theorem attemptCore_error_spec (cfg : Cfg) (beh : Beh) (loads : List Char → Option Json)
    (hgood : GoodBeh cfg beh loads) (st : AState) (s : SState)
    (r : Except MErr AttemptOut) (s2 : SState) (heq : attemptCore cfg beh loads st s = (r, s2))
    (herr : st.errors.isSome = true) (hi : st.iterations.isSome = true)
    (hm : st.maxIterations.isSome = true) (hst : st.status = "error") :
    ∃ stx e, r = Except.ok (AttemptOut.exc stx e) ∧ stx.errors.isSome = true ∧
      stx.iterations.isSome = true ∧ stx.maxIterations.isSome = true ∧
      stx.retries = st.retries := by
  unfold attemptCore at heq
  split at heq
  · simp only [Prod.mk.injEq] at heq
    obtain ⟨rfl, rfl⟩ := heq
    exact ⟨st, _, rfl, herr, hi, hm, rfl⟩
  · rename_i sX han
    rcases analyzeQueryS_spec cfg beh _ _ _ _ han with ⟨e, hc⟩ | ⟨stc, hc, hrest⟩
    · cases hc
    · cases hc
  · rename_i st1 sX han
    rcases analyzeQueryS_spec cfg beh _ _ _ _ han with ⟨e, hc⟩ |
      ⟨stc, hc, hc1, hc2, hc3, hc4, hc5, hc6⟩
    · cases hc
    · injection hc with hc
      subst hc
      split at heq
      · simp only [Prod.mk.injEq] at heq
        obtain ⟨rfl, rfl⟩ := heq
        exact ⟨st1, _, rfl, hc3.trans herr, by rw [hc1]; exact hi, by rw [hc2]; exact hm, hc4⟩
      · rename_i hsne1
        exact absurd (hc5.trans hst) hsne1

theorem attemptCore_inv_spec (cfg : Cfg) (beh : Beh) (loads : List Char → Option Json)
    (hgood : GoodBeh cfg beh loads) (st : AState) (s : SState)
    (r : Except MErr AttemptOut) (s2 : SState) (heq : attemptCore cfg beh loads st s = (r, s2))
    (herr : st.errors.isSome = true) (hi : st.iterations.isSome = true)
    (hm : st.maxIterations.isSome = true)
    (hst : st.status = "processing" ∨ st.status = "error") :
    (st.status = "processing" ∧ ∃ st4, r = Except.ok (AttemptOut.done st4) ∧
      st4.errors.isSome = true ∧ st4.iterations.isSome = true ∧
      st4.maxIterations.isSome = true ∧ st4.retries = st.retries ∧
      (st4.status = "success" ∨ st4.status = "error")) ∨
    (∃ stx e, r = Except.ok (AttemptOut.exc stx e) ∧ stx.errors.isSome = true ∧
      stx.iterations.isSome = true ∧ stx.maxIterations.isSome = true ∧
      stx.retries = st.retries) := by
  rcases hst with hst | hst
  · obtain ⟨i, hiv⟩ := Option.isSome_iff_exists.mp hi
    obtain ⟨m, hmv⟩ := Option.isSome_iff_exists.mp hm
    rcases attemptCore_spec cfg beh loads hgood st s r s2 heq i m herr hiv hmv hst with hd | he
    · exact Or.inl ⟨hst, hd⟩
    · exact Or.inr he
  · exact Or.inr (attemptCore_error_spec cfg beh loads hgood st s r s2 heq herr hi hm hst)

theorem memUpdate_spec (st : AState) (s : SState) (r : Except MErr Unit) (s2 : SState)
    (heq : memUpdate st s = (r, s2)) (hi : st.iterations.isSome = true) :
    r = Except.ok () := by
  obtain ⟨i, hiv⟩ := Option.isSome_iff_exists.mp hi
  unfold memUpdate at heq
  split at heq
  · simp only [hiv] at heq
    split at heq
    · split at heq
      · simp only [Prod.mk.injEq] at heq
        exact heq.1.symm
      · simp only [Prod.mk.injEq] at heq
        exact heq.1.symm
    · simp only [Prod.mk.injEq] at heq
      exact heq.1.symm
  · simp only [Prod.mk.injEq] at heq
    exact heq.1.symm

theorem retryLoopAux_spec (cfg : Cfg) (beh : Beh) (loads : List Char → Option Json)
    (hgood : GoodBeh cfg beh loads) :
    ∀ (fuel : Nat) (st : AState) (s : SState) (r : Except MErr AState) (s2 : SState),
      retryLoopAux cfg beh loads fuel st s = (r, s2) →
      st.errors.isSome = true → st.iterations.isSome = true → st.maxIterations.isSome = true →
      (st.status = "processing" ∨ st.status = "error") →
      (st.status = "processing" → st.retries ≤ cfg.maxRetries) →
      (if cfg.maxRetries < st.retries then 1 else if st.status = "error" then 2 else 3) ≤ fuel →
      r ≠ Except.error MErr.fuel ∧
      ∀ st1, r = Except.ok st1 → st1.status = "success" ∨ st1.status = "error"
  | 0, st, s, r, s2, heq, herr, hi, hm, hst, hpr, hmsr => by
    split at hmsr
    · omega
    · split at hmsr
      · omega
      · omega
  | fuel + 1, st, s, r, s2, heq, herr, hi, hm, hst, hpr, hmsr => by
    simp only [retryLoopAux] at heq
    split at heq
    · rename_i hret
      split at heq
      · rename_i e sA hac
        rcases attemptCore_inv_spec cfg beh loads hgood st s _ _ hac herr hi hm hst with
          ⟨hproc, st4, hok, hrest⟩ | ⟨stx, e2, hok, hrest⟩
        · cases hok
        · cases hok
      · rename_i st1 sA hac
        rcases attemptCore_inv_spec cfg beh loads hgood st s _ _ hac herr hi hm hst with
          ⟨hproc, st4, hok, d1, d2, d3, d4, d5⟩ | ⟨stx, e2, hok, hrest⟩
        · injection hok with hok
          injection hok with hok
          subst hok
          split at heq
          · rename_i hsucc
            simp only [Prod.mk.injEq] at heq
            obtain ⟨rfl, rfl⟩ := heq
            refine ⟨(fun h => by cases h), ?_⟩
            intro st2 h
            injection h with h
            subst h
            exact Or.inl hsucc
          · rename_i hnsucc
            have hst1e : st1.status = "error" := by
              rcases d5 with h | h
              · exact absurd h hnsucc
              · exact h
            split at heq
            · rename_i e3 sM hmu
              have hmo := memUpdate_spec _ _ _ _ hmu d2
              cases hmo
            · rename_i sM hmu
              have hmsr3 : 3 ≤ fuel + 1 := by
                rw [if_neg (Nat.not_lt.mpr hret), if_neg (by rw [hproc]; decide)] at hmsr
                exact hmsr
              exact retryLoopAux_spec cfg beh loads hgood fuel st1 sM r s2 heq d1 d2 d3
                (Or.inr hst1e)
                (fun hp => absurd (hp.symm.trans hst1e) (by decide))
                (by rw [if_neg (by rw [d4]; exact Nat.not_lt.mpr hret), if_pos hst1e]; omega)
        · cases hok
      · rename_i stx0 e0 sA hac
        rcases attemptCore_inv_spec cfg beh loads hgood st s _ _ hac herr hi hm hst with
          ⟨hproc, st4, hok, hrest⟩ | ⟨stx, e2, hok, x1, x2, x3, x4⟩
        · injection hok with hok
          cases hok
        · injection hok with hok
          injection hok with hok1 hok2
          subst hok1
          subst hok2
          obtain ⟨lx, hlx⟩ := Option.isSome_iff_exists.mp x1
          split at heq
          · rename_i e3 hap
            unfold appendError at hap
            simp only [hlx] at hap
            cases hap
          · rename_i st2' hap
            unfold appendError at hap
            simp only [hlx] at hap
            injection hap with hap
            subst hap
            dsimp only at heq
            split at heq
            · rename_i hexh
              split at heq
              · rename_i e4 sM hmu
                have hmo := memUpdate_spec _ _ _ _ hmu x2
                cases hmo
              · rename_i sM hmu
                have hmsr2 : 2 ≤ fuel + 1 := by
                  rw [if_neg (Nat.not_lt.mpr hret)] at hmsr
                  split at hmsr
                  · omega
                  · omega
                exact retryLoopAux_spec cfg beh loads hgood fuel _ sM r s2 heq rfl x2 x3
                  (Or.inr rfl)
                  (fun hp => absurd (show ("error" : String) = "processing" from hp) (by decide))
                  (by rw [if_pos (by exact hexh)]; omega)
            · rename_i hnexh
              simp only [Prod.mk.injEq] at heq
              obtain ⟨rfl, rfl⟩ := heq
              refine ⟨(fun h => by injection h with h; cases h), ?_⟩
              intro st2 h
              cases h
    · rename_i hret
      simp only [Prod.mk.injEq] at heq
      obtain ⟨rfl, rfl⟩ := heq
      refine ⟨(fun h => by cases h), ?_⟩
      intro st2 h
      injection h with h
      subst h
      rcases hst with h | h
      · exact absurd (hpr h) hret
      · exact Or.inr h

/-- C3 (amended): under collaborators whose parsed tool-call batches
contain only dicts with hashable (non-list, non-dict) name values and
whose prompt-template renders never raise, run() terminates — the
fuelled embedding never exhausts its fuel — and every normal return
carries a status in {success, error}; the claimed max_retries x
max_iterations x max_tool_calls call bound is dropped (it is refuted by
C3_counterexample), as is unconditional termination (a non-dict batch
element, an unhashable tool name, or a raising render loops forever
without consuming budget). -/
theorem C3_termination (cfg : Cfg) (beh : Beh) (loads : List Char → Option Json)
    (q : String) (mi : Nat) (s : SState) (hgood : GoodBeh cfg beh loads) :
    (runAgent cfg beh loads q mi s).1 ≠ Except.error MErr.fuel ∧
    ∀ st, (runAgent cfg beh loads q mi s).1 = Except.ok st →
      st.status = "success" ∨ st.status = "error" := by
  rcases hr : runAgent cfg beh loads q mi s with ⟨r, s2⟩
  unfold runAgent at hr
  have hspec := retryLoopAux_spec cfg beh loads hgood (cfg.maxRetries + 3) (initState q mi)
    { s with mem := s.mem.add_interaction "user" q } r s2 hr rfl rfl rfl (Or.inl rfl)
    (fun _ => Nat.zero_le _)
    (by
      have h0 : (initState q mi).retries = 0 := rfl
      have h1 : (initState q mi).status = "processing" := rfl
      rw [h0, h1]
      rw [if_neg (by omega)]
      rw [if_neg (by decide)]
      omega)
  exact hspec

/-- Witness for C3 at a concrete benign model: the direct-answer model
with no tool calls and an always-failing JSON decoder satisfies the
progress conditions, and the run neither exhausts fuel nor returns a
non-terminal status. -/
theorem C3_termination_witness :
    (runAgent cfgSmall behDirectAnswer jloadsNone "q" 1 initSState).1 ≠ Except.error MErr.fuel ∧
    ∀ st, (runAgent cfgSmall behDirectAnswer jloadsNone "q" 1 initSState).1 = Except.ok st →
      st.status = "success" ∨ st.status = "error" :=
  C3_termination cfgSmall behDirectAnswer jloadsNone "q" 1 initSState
    ⟨(fun n p r2 hr2 => by
        have h2 : Except.ok "y" = Except.ok r2 := hr2
        injection h2 with h2
        subst h2
        intro c hc
        rw [show parse_tool_calls jloadsNone "y" = [] from rfl] at hc
        cases hc),
     fun n t vars => ⟨"p", rfl⟩⟩

/-- Counterexample for C3: with max_retries 3, max_iterations 1 and
max_tool_calls 1, a model that answers directly makes 4 counted
collaborator calls on a successful run — the analysis call, the
tool-aware call, the evaluation call and the memory-compression call —
exceeding the claimed bound 3 x 1 x 1 = 3. -/
theorem C3_counterexample :
    (runAgent cfgSmall behDirectAnswer jloadsNone "q" 1 initSState).2.counted = 4 ∧
    cfgSmall.maxRetries * 1 * cfgSmall.maxToolCalls < 4 ∧
    runStatus (runAgent cfgSmall behDirectAnswer jloadsNone "q" 1 initSState) = some "success" :=
  ⟨rfl, by decide, rfl⟩
